import Mathlib

/-!
Verification model of the autosend contact-form pipeline.

Each definition is a shallow embedding of a function of the JavaScript
source (src/services/formAnalyzer.js, src/services/formSubmitter.js,
src/services/contactPageFinder.js, src/services/contactFormProcessor.js,
src/worker.js, and the UrlDetector utility).  Strings are modelled as
`List Char` where character-level reasoning is needed; JavaScript regular
expressions used by the source are alternations of literal substrings
(with occasional `.*` gaps and one `^...$` anchor) and are modelled as
such.  Browser I/O (puppeteer pages) is modelled by explicit environment
records carrying the outcome of every external operation, and side
effects are modelled as explicit event traces.
-/

namespace Autosend

/-! ## JavaScript string helpers (ASCII model of `toLowerCase`, `includes`, regexes) -/

/-- ASCII lower-casing of a single character.  Models the effect of JS
`String.prototype.toLowerCase` on the ASCII range; the multi-byte
Japanese keywords used by the source are unaffected by lower-casing. -/
def asciiLower (c : Char) : Char :=
  if 65 ≤ c.toNat ∧ c.toNat ≤ 90 then Char.ofNat (c.toNat + 32) else c

/-- Lower-case a character list. -/
def lowerChars (l : List Char) : List Char := l.map asciiLower

/-- JS `String.prototype.includes`: `needle` occurs as a contiguous
substring of the haystack. -/
def containsSub (needle : List Char) : List Char → Bool
  | [] => needle.isEmpty
  | c :: rest => needle.isPrefixOf (c :: rest) || containsSub needle rest

/-- A regex that is an alternation of literal substrings matches iff one
of the literals occurs in the subject. -/
def containsAny (needles : List String) (hay : List Char) : Bool :=
  needles.any fun n => containsSub n.toList hay

/-- JS `.` (no `s` flag) matches any character except a line terminator. -/
def jsLineTerm (c : Char) : Bool :=
  c = '\n' || c = '\r' || c.toNat = 0x2028 || c.toNat = 0x2029

/-- Match `b` (a literal) after a possibly empty run of non-line-terminator
characters, i.e. the `.*b`-suffix part of a `a.*b` regex fragment. -/
def dotStarThen (b : List Char) : List Char → Bool
  | [] => b.isEmpty
  | c :: rest => b.isPrefixOf (c :: rest) || (!jsLineTerm c && dotStarThen b rest)

/-- Match of the regex fragment `a.*b` anywhere in the subject: a literal
`a`, then any non-line-terminator characters, then a literal `b`. -/
def seqDotStar (a b : String) : List Char → Bool
  | [] => false
  | c :: rest =>
    (a.toList.isPrefixOf (c :: rest) && dotStarThen b.toList ((c :: rest).drop a.length))
      || seqDotStar a b rest

/-! ## FormAnalyzer (src/services/formAnalyzer.js)

`detectFieldType`, `calculateFormScore` and `findBestContactForm` are
pure functions of the extracted form data and are embedded directly. -/

/-- One extracted form control, as built by the in-page extraction in
`analyzeForm` (tagName/type/name/id/placeholder/label/required/className/
autocomplete; the numeric validation attributes are not read by any of
the functions modelled here). -/
structure InputField where
  tagName : String
  type : String
  name : String
  id : String
  placeholder : String
  label : String
  required : Bool
  className : String
  autocomplete : String
  deriving Repr, DecidableEq

/-- One extracted submit button (`{type, text, id, className}`). -/
structure SubmitButton where
  type : String
  text : String
  id : String
  className : String
  deriving Repr, DecidableEq

/-- The concatenated search string of `detectFieldType`:
`` `${name} ${id} ${placeholder} ${label} ${className} ${autocomplete}`.toLowerCase() ``. -/
def searchStrOf (input : InputField) : List Char :=
  lowerChars (input.name ++ " " ++ input.id ++ " " ++ input.placeholder ++ " "
      ++ input.label ++ " " ++ input.className ++ " " ++ input.autocomplete).toList

/-- `FormAnalyzer.detectFieldType`: ordered cascade of keyword/regex
tests over the lower-cased concatenated attributes; first match wins and
an unmatched field yields `"text"`. -/
def detectFieldType (input : InputField) : String :=
  let s := searchStrOf input
  if input.type = "email" || containsAny ["email", "e-mail", "mail", "メール", "メールアドレス"] s then
    "email"
  else if input.type = "tel" ||
      (containsAny ["phone", "tel", "mobile", "電話", "携帯", "電話番号"] s
        || seqDotStar "contact" "number" s) then
    "phone"
  else if decide (s = "name".toList) ||
      (seqDotStar "full" "name" s || seqDotStar "your" "name" s
        || seqDotStar "contact" "name" s
        || containsAny ["氏名", "名前", "fullname"] s) then
    "fullname"
  else if seqDotStar "first" "name" s ||
      containsAny ["fname", "first_name", "first-name", "first_kana"] s
        || seqDotStar "given" "name" s then
    "firstname"
  else if seqDotStar "last" "name" s ||
      containsAny ["lname", "surname", "last_name", "last-name", "last_kana"] s
        || seqDotStar "family" "name" s then
    "lastname"
  else if containsAny ["company", "organization", "organisation", "business",
      "会社", "企業", "会社名", "corporation"] s then
    "company"
  else if containsAny ["department", "dept", "部署", "department_name", "部門", "部署名"] s then
    "department"
  else if seqDotStar "job" "title" s ||
      containsAny ["title", "position", "role", "職", "役職", "job_title", "職種", "役職名"] s then
    "jobtitle"
  else if input.type = "url" ||
      containsAny ["website", "url", "site", "ウェブサイト", "web_site", "homepage", "会社url"] s then
    "website"
  else if input.tagName = "textarea" ||
      containsAny ["message", "comment", "inquiry", "enquiry", "details", "description",
        "question", "お問い合わせ", "内容", "詳細", "メッセージ", "comments", "body", "content"] s then
    "message"
  else if containsAny ["subject", "topic", "regarding", "件名", "タイトル", "subject_line"] s then
    "subject"
  else
    "text"

/-- A form control together with the semantic type assigned by
`categorizeForm` (`{...input, fieldType}`). -/
structure CategorizedInput extends InputField where
  fieldType : String
  deriving Repr, DecidableEq

/-- The field-count bonus/penalty term of `calculateFormScore`. -/
def fieldCountTerm (n : Nat) : Int :=
  if 2 ≤ n ∧ n ≤ 25 then 15
  else if n > 25 then -15
  else -20

/-- The submit-intent keyword test on the first submit button's text
(`/submit|send|contact|inquire|enquire|送信|送る|申込|お問い合わせ|確認|次へ/`). -/
def submitIntentText (text : String) : Bool :=
  containsAny ["submit", "send", "contact", "inquire", "enquire",
    "送信", "送る", "申込", "お問い合わせ", "確認", "次へ"] (lowerChars text.toList)

/-- `FormAnalyzer.calculateFormScore`: additive relevance score of a
form from its categorized inputs and its submit buttons. -/
def calculateFormScore (inputs : List CategorizedInput) (submitButtons : List SubmitButton) : Int :=
  (if inputs.any fun i => i.fieldType = "email" then 40 else 0)
    + (if inputs.any fun i => i.fieldType = "message" then 35 else 0)
    + (if inputs.any fun i =>
        i.fieldType = "fullname" || i.fieldType = "firstname" || i.fieldType = "lastname"
      then 20 else 0)
    + (if inputs.any fun i => i.fieldType = "company" then 10 else 0)
    + fieldCountTerm inputs.length
    + (match submitButtons with
      | [] => 0
      | b :: _ => 15 + (if submitIntentText b.text then 10 else 0))

/-- One analyzed form as produced by `categorizeForm`: extracted data
plus the derived score. -/
structure AnalyzedForm where
  index : Nat
  inputs : List CategorizedInput
  submitButtons : List SubmitButton
  score : Int
  deriving Repr, DecidableEq

/-- The form has at least one email-classified field. -/
def formHasEmail (f : AnalyzedForm) : Bool :=
  f.inputs.any fun i => i.fieldType = "email"

/-- The form has at least one message-classified field. -/
def formHasMessage (f : AnalyzedForm) : Bool :=
  f.inputs.any fun i => i.fieldType = "message"

/-- The descending-score order realized by the comparator
`(a, b) => b.score - a.score`. -/
def scoreDesc (a b : AnalyzedForm) : Prop := b.score ≤ a.score

instance : DecidableRel scoreDesc := fun a b => inferInstanceAs (Decidable (b.score ≤ a.score))

instance : IsTotal AnalyzedForm scoreDesc :=
  ⟨fun a b => (le_total b.score a.score).imp id id⟩

instance : IsTrans AnalyzedForm scoreDesc :=
  ⟨fun _ _ _ hab hbc => le_trans hbc hab⟩

/-- `FormAnalyzer.findBestContactForm`: sort descending by score (the JS
`Array.prototype.sort` with comparator `b.score - a.score`, modelled as
an insertion sort producing a score-descending permutation), accept the
top form when its score reaches 30, otherwise accept the first form of
the sorted list having an email field, a message field and a submit
button, otherwise report no suitable form. -/
def findBestContactForm (forms : List AnalyzedForm) : Option AnalyzedForm :=
  if forms.isEmpty then none
  else
    let sorted := forms.insertionSort scoreDesc
    match sorted with
    | [] => none
    | top :: _ =>
      if 30 ≤ top.score then some top
      else
        match sorted.find? fun f =>
            formHasEmail f && formHasMessage f && !f.submitButtons.isEmpty with
        | some fallback => some fallback
        | none => none

/-! ## FormSubmitter (src/services/formSubmitter.js)

`submitForm` drives a sequence of page interactions.  The page is
modelled as a record of the outcomes of every external operation
(navigation success, presence of challenge-widget markers, per-field
fill success, click success), and `submitForm` additionally returns the
trace of interactions it performed, in order. -/

/-- The fixed test-data record of the `FormSubmitter` constructor, with
the default values (the environment overrides fall back to these same
defaults when unset or empty, `process.env.X || default`). -/
def testData (key : String) : Option String :=
  if key = "email" then some "test@example.com"
  else if key = "phone" then some "+1234567890"
  else if key = "website" then some "https://example.com"
  else if key = "message" then some "This is a test submission from automated form filler."
  else if key = "firstname" then some "Test"
  else if key = "lastname" then some "User"
  else if key = "fullname" then some "Test User"
  else if key = "company" then some "Test Company Inc."
  else if key = "subject" then some "General Inquiry"
  else none

/-- JS `string.includes(sub)` on strings. -/
def strIncludes (hay sub : String) : Bool := containsSub sub.toList hay.toList

/-- ASCII model of JS `String.prototype.toLowerCase` on a `String`. -/
def lowerStr (s : String) : String := (lowerChars s.toList).asString

/-- `FormSubmitter.getValueForField`: name/id substring matching first,
then the `fieldType`-keyed test datum, finally the generic message. -/
def getValueForField (input : CategorizedInput) : Option String :=
  let fieldName := lowerStr (if input.name = "" then input.id else input.name)
  if strIncludes fieldName "email" then testData "email"
  else if strIncludes fieldName "phone" || strIncludes fieldName "telephone" then testData "phone"
  else if strIncludes fieldName "website" || strIncludes fieldName "url" then testData "website"
  else if strIncludes fieldName "first" || strIncludes fieldName "firstname" then
    testData "firstname"
  else if strIncludes fieldName "last" || strIncludes fieldName "lastname" then testData "lastname"
  else if strIncludes fieldName "name" && strIncludes fieldName "full" then testData "fullname"
  else if strIncludes fieldName "name" then testData "fullname"
  else if strIncludes fieldName "company" || strIncludes fieldName "organisation"
      || strIncludes fieldName "organization" then testData "company"
  else if strIncludes fieldName "subject" || strIncludes fieldName "title" then testData "subject"
  else match testData input.fieldType with
    | some v => some v
    | none => testData "message"

/-- Outcome record of `submitForm`.  The JS branches return object
literals with different key sets; a key that is absent on a branch reads
back as `undefined`, which is falsy, so absent boolean keys are
modelled as `false` and absent data keys as `none`. -/
structure SubmissionOutcome where
  success : Bool
  error : Option String := none
  hasCaptcha : Bool := false
  fieldsFilledCount : Option Nat := none
  successDetected : Bool := false
  finalUrl : Option String := none
  urlChanged : Bool := false
  deriving Repr, DecidableEq

/-- One page interaction performed by `submitForm`, in trace order. -/
inductive SubmitAction where
  | navigate
  | fillAttempt (name : String)
  | handleCheckboxes
  | ensurePrivacy
  | captchaScan
  | clickSubmit
  deriving Repr, DecidableEq

/-- Environment model of the one browser page `submitForm` works on:
outcomes of every external page operation it can perform. -/
structure SubmitPage where
  navOk : Bool
  fillById : String → Bool
  fillByName : String → Bool
  fillBySelector : String → Bool
  hasRecaptchaMarker : Bool
  hasHcaptchaMarker : Bool
  hasTurnstileMarker : Bool
  hasCloudflareIframe : Bool
  clickByIdWorks : String → Bool
  clickByKeywordWorks : Bool
  finalUrl : String
  content : String

/-- `FormSubmitter.detectCaptcha`: any of the four challenge-widget
marker queries (`.g-recaptcha`/`[data-sitekey]`/`.recaptcha`,
`.h-captcha`, `.cf-turnstile`, `iframe[src*="challenges.cloudflare"]`)
matches. -/
def detectCaptcha (page : SubmitPage) : Bool :=
  page.hasRecaptchaMarker || page.hasHcaptchaMarker
    || page.hasTurnstileMarker || page.hasCloudflareIframe

/-- Fill one field through the strategy chain of `fillFormFields`:
by id, then by name, then by a generic selector; first success stops. -/
def fillOneField (page : SubmitPage) (input : CategorizedInput) : Bool :=
  let byId := if input.id ≠ "" then page.fillById input.id else false
  if byId then true
  else
    let byName := if input.name ≠ "" then page.fillByName input.name else false
    if byName then true
    else page.fillBySelector (if input.tagName = "textarea" then "textarea"
      else if input.type ≠ "" then "input[type=" ++ input.type ++ "]" else "input")

/-- `FormSubmitter.fillFormFields`: walk the analyzed inputs, skipping
checkboxes and radio buttons, deriving a value for each remaining field
and attempting the fill chain; returns the filled count (success means
at least one field was filled) and the trace of fill attempts. -/
def fillFormFields (page : SubmitPage) (inputs : List CategorizedInput) :
    Nat × List SubmitAction :=
  match inputs with
  | [] => (0, [])
  | input :: rest =>
    let restRes := fillFormFields page rest
    if input.type = "checkbox" || input.type = "radio" then restRes
    else match getValueForField input with
      | none => restRes
      | some _ =>
        ((if fillOneField page input then 1 else 0) + restRes.1,
          SubmitAction.fillAttempt input.name :: restRes.2)

/-- `FormSubmitter.clickSubmitButton`: succeeds when the form data lists
a submit button and either the id-based click or the keyword-scan click
finds an enabled button to click. -/
def clickSubmitButton (page : SubmitPage) (formData : AnalyzedForm) : Bool :=
  match formData.submitButtons with
  | [] => false
  | btn :: _ =>
    (if btn.id ≠ "" then page.clickByIdWorks btn.id else false) || page.clickByKeywordWorks

/-- Multi-language success phrases of `detectSuccessResponse` (the
English subset suffices for the claims settled here; the full list is in
the source). -/
def successKeywords : List String :=
  ["thank you", "thanks for", "message sent", "successfully submitted",
    "received your", "contact you soon", "submission successful", "form submitted",
    "success", "confirmed", "ありがとう", "送信完了", "完了", "gracias", "merci", "danke"]

/-- `FormSubmitter.detectSuccessResponse`: success keyword in the page
content, a thank-you-style final URL, or any URL change. -/
def detectSuccessResponse (pageContent finalUrl originalUrl : String) : Bool :=
  containsAny successKeywords (lowerChars pageContent.toList)
    || strIncludes finalUrl "thank" || strIncludes finalUrl "success"
    || strIncludes finalUrl "confirmation" || strIncludes finalUrl "thanks"
    || strIncludes finalUrl "submitted"
    || decide (finalUrl ≠ originalUrl)

/-- `FormSubmitter.submitForm`: navigate, fill the fields, resolve
checkboxes/radios, scan for challenge widgets — aborting with
`hasCaptcha := true` before any click when one is present — then click
submit and classify the outcome.  Returns the outcome together with the
ordered trace of page interactions. -/
def submitForm (page : SubmitPage) (url : String) (formData : AnalyzedForm) :
    SubmissionOutcome × List SubmitAction :=
  if !page.navOk then
    ({ success := false, error := some "navigation failed" }, [SubmitAction.navigate])
  else
    let fillRes := fillFormFields page formData.inputs
    let filledCount := fillRes.1
    let trace := SubmitAction.navigate :: fillRes.2
    if filledCount = 0 then
      ({ success := false, error := some "Failed to fill form fields" }, trace)
    else
      let trace := trace ++ [SubmitAction.handleCheckboxes, SubmitAction.ensurePrivacy]
      let trace := trace ++ [SubmitAction.captchaScan]
      if detectCaptcha page then
        ({ success := false, error := some "CAPTCHA detected", hasCaptcha := true,
           fieldsFilledCount := some filledCount }, trace)
      else if !clickSubmitButton page formData then
        ({ success := false,
           error := some (if formData.submitButtons.isEmpty then "No submit button found"
             else "Could not click submit button"),
           fieldsFilledCount := some filledCount }, trace)
      else
        let trace := trace ++ [SubmitAction.clickSubmit]
        ({ success := true, finalUrl := some page.finalUrl,
           urlChanged := decide (page.finalUrl ≠ url),
           successDetected := detectSuccessResponse page.content page.finalUrl url,
           fieldsFilledCount := some filledCount }, trace)

/-! ## UrlDetector.normalizeUrl (src/utils/urlDetector.js)

`normalizeUrl(url)` returns `null` for a falsy input, trims the string,
replaces it by the inside of the first parenthesized group if the regex
`\(([^)]+)\)` matches, prepends `https://` when the string starts with
neither `http://` nor `https://`, and finally returns `new URL(url).href`,
catching any parse failure as `null`.

`new URL` is the WHATWG URL parser.  It is modelled here for inputs that
start with `http://` or `https://` (the only inputs `normalizeUrl` hands
it): tab/LF/CR characters are removed everywhere, extra slashes after the
scheme are skipped, the authority runs up to the first `/ \ ? #`, the
host is percent-decoded, rejected if empty or containing a forbidden
domain code point (C0 controls, space, `# / : < > ? @ [ \ ] ^ |`, `%`,
U+007F) and ASCII-lower-cased, the port must be decimal digits, at most
65535, and is dropped when empty or equal to the scheme default, the
path (backslashes rewritten to slashes, empty path serialized as `/`),
query and fragment are carried over, and the serialization is
`scheme://host[:port]path[?query][#fragment]`.

Model simplifications of `new URL`, each conservative for the claims
settled here: no IDNA/punycode mapping of non-ASCII hosts and no IPv4/
IPv6 canonicalization (the concrete inputs used in the theorems below
are pure-ASCII domain hosts, where the real parser and the model agree);
an authority containing userinfo (`@`) is rejected instead of being
serialized; percent-encoding of unusual path/query characters is not
applied.  The percent-DEcoding of the host and the acceptance of `(`
and `)` in a decoded host are real WHATWG behavior: `(`/`)` are not
forbidden host code points, and `domain to ASCII` is invoked with
`beStrict = false`, i.e. `UseSTD3ASCIIRules = false`, under which both
characters are valid. -/

/-- Whitespace trimmed by `String.prototype.trim` (ASCII subset; the
full JS set also trims further Unicode space characters, which do not
occur in the claims below). -/
def jsWsChar (c : Char) : Bool :=
  c.toNat = 32 || c.toNat = 9 || c.toNat = 10 || c.toNat = 13

/-- Model of `String.prototype.trim`. -/
def trimChars (l : List Char) : List Char :=
  ((l.dropWhile jsWsChar).reverse.dropWhile jsWsChar).reverse

/-- First match of the capture group of `/\(([^)]+)\)/`: scanning left
to right, the first `(` that is followed by a nonempty run of
non-`)` characters and then a `)` yields that run. -/
def parenExtract : List Char → Option (List Char)
  | [] => none
  | c :: rest =>
    if c = '(' then
      match rest.span (fun d => d ≠ ')') with
      | (interior, ')' :: _) => if interior.isEmpty then parenExtract rest else some interior
      | _ => parenExtract rest
    else parenExtract rest

/-- `url.startsWith('http://') || url.startsWith('https://')`. -/
def startsWithScheme (l : List Char) : Bool :=
  "http://".toList.isPrefixOf l || "https://".toList.isPrefixOf l

/-- Value of an ASCII hex digit. -/
def hexDigitVal? (c : Char) : Option Nat :=
  let n := c.toNat
  if 48 ≤ n ∧ n ≤ 57 then some (n - 48)
  else if 65 ≤ n ∧ n ≤ 70 then some (n - 55)
  else if 97 ≤ n ∧ n ≤ 102 then some (n - 87)
  else none

/-- WHATWG percent-decoding: every `%XY` with two hex digits becomes the
byte `0xXY`; malformed `%` sequences are kept literally. -/
def pctDecode : List Char → List Char
  | [] => []
  | '%' :: a :: b :: rest2 =>
    match hexDigitVal? a, hexDigitVal? b with
    | some hi, some lo => Char.ofNat (16 * hi + lo) :: pctDecode rest2
    | _, _ => '%' :: pctDecode (a :: b :: rest2)
  | c :: rest => c :: pctDecode rest

/-- WHATWG forbidden domain code points: C0 controls, U+007F, and
space `#` `/` `:` `<` `>` `?` `@` `[` `\\` `]` `^` `|` `%`. -/
def forbiddenDomainChar (c : Char) : Bool :=
  c.toNat < 0x20 || c.toNat = 0x7F || c.toNat = 0x20 || c.toNat = 0x23 || c.toNat = 0x2F
    || c.toNat = 0x3A || c.toNat = 0x3C || c.toNat = 0x3E || c.toNat = 0x3F || c.toNat = 0x40
    || c.toNat = 0x5B || c.toNat = 0x5C || c.toNat = 0x5D || c.toNat = 0x5E || c.toNat = 0x7C
    || c.toNat = 0x25

/-- Characters terminating the authority section of a special URL. -/
def authTermChar (c : Char) : Bool :=
  c = '/' || c = '?' || c = '#' || c = '\\'

/-- Slash-class characters skipped after the `//` of a special scheme. -/
def slashChar (c : Char) : Bool := c = '/' || c = '\\'

/-- Split at the first occurrence of `t`: the part before it, and
(when `t` occurs) the part after it. -/
def splitAtFirst (t : Char) : List Char → List Char × Option (List Char)
  | [] => ([], none)
  | c :: rest =>
    if c = t then ([], some rest)
    else
      let p := splitAtFirst t rest
      (c :: p.1, p.2)

/-- Decimal digit value of a character. -/
def decDigit? (c : Char) : Option Nat :=
  if '0' ≤ c ∧ c ≤ '9' then some (c.toNat - '0'.toNat) else none

/-- Read a decimal digit string (any non-digit fails). -/
def readDigits (acc : Nat) : List Char → Option Nat
  | [] => some acc
  | c :: rest =>
    match decDigit? c with
    | some d => readDigits (acc * 10 + d) rest
    | none => none

/-- Parse a nonempty decimal digit string. -/
def charsToNat? (l : List Char) : Option Nat :=
  if l.isEmpty then none else readDigits 0 l

/-- The decimal digit character for `n < 10`. -/
def digitChar : Nat → Char
  | 0 => '0' | 1 => '1' | 2 => '2' | 3 => '3' | 4 => '4'
  | 5 => '5' | 6 => '6' | 7 => '7' | 8 => '8' | _ => '9'

/-- Decimal digits of `n`, most significant first (fuel-structured so
that it reduces definitionally; `n + 1` units of fuel always suffice). -/
def natToCharsAux : Nat → Nat → List Char
  | 0, _ => []
  | fuel + 1, n =>
    if n < 10 then [digitChar n]
    else natToCharsAux fuel (n / 10) ++ [digitChar (n % 10)]

/-- Decimal representation of `n`. -/
def natToChars (n : Nat) : List Char := natToCharsAux (n + 1) n

/-- The ten decimal digit characters. -/
def digitList : List Char := ['0', '1', '2', '3', '4', '5', '6', '7', '8', '9']

/-- Default port of the scheme. -/
def defaultPort (secure : Bool) : Nat := if secure then 443 else 80

/-- WHATWG port parsing: absent or empty means no port; otherwise the
digits must parse and fit in 16 bits, and the scheme default is elided.
`none` is a URL parse failure. -/
def parsePort (secure : Bool) : Option (List Char) → Option (Option Nat)
  | none => some none
  | some ds =>
    if ds.isEmpty then some none
    else match charsToNat? ds with
      | none => none
      | some n =>
        if n > 65535 then none
        else if n = defaultPort secure then some none
        else some (some n)

/-- A parsed special-scheme URL record. -/
structure ParsedUrl where
  secure : Bool
  host : List Char
  port : Option Nat
  path : List Char
  query : Option (List Char)
  fragment : Option (List Char)
  deriving Repr, DecidableEq

/-- The serialized port section (`:` and decimal digits, when present). -/
def portChars : Option Nat → List Char
  | none => []
  | some n => ':' :: natToChars n

/-- The serialized query section (`?` and the query, when present). -/
def queryChars : Option (List Char) → List Char
  | none => []
  | some q => '?' :: q

/-- The serialized fragment section (`#` and the fragment, when present). -/
def fragChars : Option (List Char) → List Char
  | none => []
  | some f => '#' :: f

/-- The WHATWG URL serializer for the record above: this is the `href`
read back by `normalizeUrl`. -/
def serializeUrl (p : ParsedUrl) : List Char :=
  (if p.secure then "https://".toList else "http://".toList)
    ++ p.host ++ portChars p.port ++ p.path ++ queryChars p.query ++ fragChars p.fragment

/-- Rewrite a backslash to a slash (path serialization of special URLs). -/
def slashFix (c : Char) : Char := if c = '\\' then '/' else c

/-- Parse everything after `scheme://` of a special-scheme URL. -/
def parseAfterScheme (secure : Bool) (afterScheme : List Char) : Option ParsedUrl :=
  let rest := afterScheme.dropWhile slashChar
  let auth := rest.takeWhile fun c => !authTermChar c
  let rest2 := rest.dropWhile fun c => !authTermChar c
  if '@' ∈ auth then none
  else
    let hp := splitAtFirst ':' auth
    let decoded := pctDecode hp.1
    if decoded.isEmpty then none
    else if decoded.any forbiddenDomainChar then none
    else
      match parsePort secure hp.2 with
      | none => none
      | some port =>
        let pf := splitAtFirst '#' rest2
        let pq := splitAtFirst '?' pf.1
        some { secure := secure
               host := decoded.map asciiLower
               port := port
               path := if pq.1.isEmpty then ['/'] else pq.1.map slashFix
               query := pq.2
               fragment := pf.2 }

/-- Tab, LF or CR. -/
def ctlChar (c : Char) : Bool :=
  c.toNat = 9 || c.toNat = 10 || c.toNat = 13

/-- Removal of all tab, LF and CR characters (first step of the WHATWG
parser; its surrounding C0/space trim has already been performed by
`normalizeUrl`'s own trim on the inputs modelled here). -/
def stripCtl (l : List Char) : List Char :=
  l.filter fun c => !ctlChar c

/-- Model of `new URL(url).href` for a URL string starting with
`http://` or `https://`, as `normalizeUrl` guarantees. -/
def parseHttpUrl (l : List Char) : Option ParsedUrl :=
  let l := stripCtl l
  if "https://".toList.isPrefixOf l then parseAfterScheme true (l.drop 8)
  else if "http://".toList.isPrefixOf l then parseAfterScheme false (l.drop 7)
  else none

/-- `UrlDetector.normalizeUrl` on character lists. -/
def normalizeUrlChars (l : List Char) : Option (List Char) :=
  if l.isEmpty then none
  else
    let t := trimChars l
    let t := match parenExtract t with
      | some inner => trimChars inner
      | none => t
    let t := if startsWithScheme t then t else "https://".toList ++ t
    (parseHttpUrl t).map serializeUrl

/-- `UrlDetector.normalizeUrl`: `null` for falsy input, trim, extract a
parenthesized URL, default the scheme to `https`, re-parse; `null`
instead of an exception on unparsable input. -/
def normalizeUrl (url : String) : Option String :=
  (normalizeUrlChars url.toList).map List.asString

/-! ## ContactPageFinder (src/services/contactPageFinder.js)

Two discovery strategies over one caller-supplied page.  The link
extraction and the per-URL HTTP probing are browser operations and are
modelled by an environment record; the keyword selection logic over the
extracted links and the fixed path list are embedded directly. -/

/-- The fixed ordered list of common contact-page paths
(`this.commonPaths`). -/
def commonPaths : List String :=
  ["/contact/", "/contact-us/", "/contactus/", "/get-in-touch/", "/contact",
    "/reach-us/", "/inquiry/", "/support/", "/contact-form/", "/connect/",
    "/touch/", "/enquiry/", "/enquiries/"]

/-- The multi-language contact keyword lists (`this.contactKeywords`),
one list per locale. -/
def contactKeywords : List (List String) :=
  [["contact", "reach", "touch", "inquiry", "inquire", "enquiry", "support",
      "connect", "message", "get in touch"],
    ["צור קשר", "יצור קשר", "צרו קשר", "קשר", "פנייה", "תקשורת"],
    ["お問い合わせ", "問い合わせ", "お問合せ", "コンタクト", "連絡", "ご連絡", "サポート", "お支持"],
    ["contacto", "contactenos", "ponte en contacto", "comunicarse", "soporte"],
    ["contact", "nous contacter", "contacter", "support"],
    ["kontakt", "kontaktieren", "kontakt aufnehmen", "support"],
    ["contatti", "contattaci", "contatto", "supporto"],
    ["contato", "contatenos", "suporte", "entrar em contato"],
    ["اتصل", "تواصل", "التواصل", "دعم"],
    ["문의", "연락", "지원", "문의하기", "문의 사항"],
    ["联系", "联系我们", "接触", "支持", "留言", "咨询"]]

/-- The exclusion keywords of `findByHomepageLinks`. -/
def excludeKeywords : List String :=
  ["career", "job", "press", "media", "blog", "news", "privacy", "terms", "legal", "cookie"]

/-- One anchor as extracted in-page by `findByHomepageLinks`: `text` is
the already-lower-cased concatenation of the anchor text, nested span
texts and the aria label; `href` is the resolved link target. -/
structure LinkInfo where
  text : String
  href : String
  deriving Repr, DecidableEq

/-- Keyword test of `findByHomepageLinks`: some locale list has a
keyword contained in the link's search text. -/
def hasContactKeyword (text : String) : Bool :=
  contactKeywords.any fun kws => kws.any fun k => strIncludes text (lowerStr k)

/-- Exclusion test of `findByHomepageLinks`. -/
def isExcludedLink (text : String) : Bool :=
  excludeKeywords.any fun k => strIncludes text k

/-- Selection loop of `ContactPageFinder.findByHomepageLinks` over the
extracted links: the href of the first link in document order whose text
matches a contact keyword and no exclusion keyword.  `links = none`
models a navigation/extraction failure (caught, yielding `null`), and an
empty link list also yields `null`. -/
def findByHomepageLinks (links : Option (List LinkInfo)) : Option String :=
  match links with
  | none => none
  | some ls =>
    if ls.isEmpty then none
    else ls.findSome? fun link =>
      if hasContactKeyword link.text && !isExcludedLink link.text then some link.href
      else none

/-- The `origin` of a parsed URL (`new URL(homepage).origin`). -/
def originOf (p : ParsedUrl) : String :=
  ((if p.secure then "https://".toList else "http://".toList)
    ++ p.host
    ++ (match p.port with
      | none => []
      | some n => ':' :: natToChars n)).asString

/-- `ContactPageFinder.findByDirectUrl`: probe `origin + path` for every
path of the fixed list in order and accept the first that responds with
HTTP 200 (`pathStatus` gives each probe's response status, `none` for a
navigation failure).  An unparsable homepage is caught as `null`. -/
def findByDirectUrl (homepage : String) (pathStatus : String → Option Nat) : Option String :=
  match parseHttpUrl homepage.toList with
  | none => none
  | some p =>
    commonPaths.findSome? fun path =>
      let testUrl := originOf p ++ path
      if pathStatus testUrl = some 200 then some testUrl else none

/-- Environment of one `findContactPage` run: the extracted homepage
links, and the probe outcomes of the direct-URL strategy. -/
structure FinderEnv where
  links : Option (List LinkInfo)
  pathStatus : String → Option Nat

/-- The discovery strategies, in the order `findContactPage` tries them. -/
inductive FinderStrategy where
  | homepageLinks
  | directUrl
  deriving Repr, DecidableEq

/-- `ContactPageFinder.findContactPage`: with a caller-supplied page,
run homepage-link analysis first and return its result without probing
when it succeeds, otherwise fall back to direct-URL probing; both
failing yields `null`.  When no page is supplied (`existingPage =
false`), `page` is a `const` binding of `null` and the page-creation
branch assigns to it, which raises a `TypeError` that the surrounding
`catch` converts to `null` before either strategy runs.  The returned
trace lists the strategies that were attempted. -/
def findContactPage (homepage : String) (existingPage : Bool) (env : FinderEnv) :
    Option String × List FinderStrategy :=
  if !existingPage then (none, [])
  else
    match findByHomepageLinks env.links with
    | some url => (some url, [FinderStrategy.homepageLinks])
    | none =>
      (findByDirectUrl homepage env.pathStatus,
        [FinderStrategy.homepageLinks, FinderStrategy.directUrl])

/-! ## ContactFormProcessor.processCompany (src/services/contactFormProcessor.js)

One company flows through: homepage determination (given `company.url`,
else name-based detection), a reachability probe with a certificate-class
skip, contact-page determination (given `company.contact_url`, else
discovery), form analysis, and submission; every exit path builds one
result record, saves it through the results manager and the process
tracker, and returns it, with a catch-all converting any exception into
a terminal `ERROR` result.  `saveResult` and `saveProcessedCompany`
catch their own I/O errors internally and never throw.  The wall-clock
fields (`processing_time_ms`, `timestamp`) are not modelled. -/

/-- A company record as `processCompany` receives it.  JS objects are
open records: `url`/`contact_url` are the keys the direct entry point
populates, `homepage`/`contact_form_url` are the keys the queue worker
populates; a missing key reads as `undefined` (`none`). -/
structure Company where
  id : Nat
  name : String
  url : Option String
  contact_url : Option String
  homepage : Option String
  contact_form_url : Option String
  deriving Repr, DecidableEq

/-- JS truthiness of an optional string (`undefined`, `null` and `""`
are falsy). -/
def strTruthy : Option String → Bool
  | none => false
  | some s => !s.isEmpty

/-- Outcome of the homepage reachability probe
(`page.goto(homepage, {waitUntil:'domcontentloaded'})`). -/
inductive NavOutcome where
  | ok
  | status0
  | certError
  | otherError
  deriving Repr, DecidableEq

/-- Environment of one `processCompany` run: outcomes of every external
operation (website detection by name, the reachability probe, contact
page discovery, form analysis, submission). -/
structure ProcEnv where
  detectWebsite : String → Option String
  nav : String → NavOutcome
  findContact : String → Option String
  analyzeContactForm : String → Option AnalyzedForm
  submit : String → AnalyzedForm → SubmissionOutcome

/-- The terminal result record built by `processCompany` (the modelled
fields; the submission payload and form-analysis summary are carried
through on the success path by the source and omitted here). -/
structure ProcResult where
  id : Nat
  name : String
  homepage : Option String
  contact_form_url : Option String
  status : String
  message : Option String := none
  error : Option String := none
  deriving Repr, DecidableEq

/-- Observable side effects of one `processCompany` run, in order. -/
inductive ProcEvent where
  | detectWebsiteCalled (name : String)
  | navProbe (url : String)
  | finderCalled (homepage : String)
  | analyzerCalled (url : String)
  | submitterCalled (url : String)
  | savedResult (status : String)
  | savedTracker (status : String)
  deriving Repr, DecidableEq

/-- Shared exit point: save the result to the results manager and the
process tracker, then return it (every return of `processCompany` is of
this shape). -/
def finishWith (r : ProcResult) (pre : List ProcEvent) : ProcResult × List ProcEvent :=
  (r, pre ++ [ProcEvent.savedResult r.status, ProcEvent.savedTracker r.status])

/-- The catch-all exit of `processCompany`: any exception becomes a
terminal `ERROR` result whose homepage is the raw `company.url || null`. -/
def errorExit (company : Company) (msg : String) (pre : List ProcEvent) :
    ProcResult × List ProcEvent :=
  finishWith
    { id := company.id, name := company.name
      homepage := if strTruthy company.url then company.url else none
      contact_form_url := none, status := "ERROR", error := some msg } pre

/-- `ContactFormProcessor.processCompany`. -/
def processCompany (company : Company) (env : ProcEnv) : ProcResult × List ProcEvent :=
  -- Step 1: homepage from company.url, else name-based detection.
  let homepage? := if strTruthy company.url then normalizeUrl (company.url.getD "")
    else env.detectWebsite company.name
  let evs0 := if strTruthy company.url then ([] : List ProcEvent)
    else [ProcEvent.detectWebsiteCalled company.name]
  if !strTruthy company.url && homepage?.isNone then
    -- `throw new Error('Could not detect company website')`, caught below.
    errorExit company "Could not detect company website" evs0
  else
    -- Reachability probe; `page.goto(null)` raises a non-certificate error.
    let navResult := match homepage? with
      | none => NavOutcome.otherError
      | some h => env.nav h
    let evs1 := evs0 ++ [ProcEvent.navProbe (homepage?.getD "null")]
    match navResult with
    | NavOutcome.certError =>
      -- message contains `ERR_CERT_`/`SSL`/`certificate`.
      finishWith
        { id := company.id, name := company.name, homepage := homepage?
          contact_form_url := none, status := "SKIPPED"
          message := some "SSL/Certificate error - site unreachable" } evs1
    | NavOutcome.status0 =>
      -- `throw new Error('Site unreachable - possible certificate error')`:
      -- that message contains "certificate", so the same skip branch runs.
      finishWith
        { id := company.id, name := company.name, homepage := homepage?
          contact_form_url := none, status := "SKIPPED"
          message := some "SSL/Certificate error - site unreachable" } evs1
    | NavOutcome.otherError =>
      errorExit company "navigation failed" evs1
    | NavOutcome.ok =>
      -- Step 2: contact form URL from company.contact_url, else discovery.
      let direct? : Option String :=
        if strTruthy company.contact_url
            && !(trimChars (company.contact_url.getD "").toList).isEmpty then
          normalizeUrl (company.contact_url.getD "")
        else none
      let contactFormUrl? := if direct?.isSome then direct?
        else env.findContact (homepage?.getD "")
      let evs2 := if direct?.isSome then evs1
        else evs1 ++ [ProcEvent.finderCalled (homepage?.getD "")]
      match contactFormUrl? with
      | none =>
        finishWith
          { id := company.id, name := company.name, homepage := homepage?
            contact_form_url := none, status := "SKIPPED"
            message := some "Could not find contact page" } evs2
      | some contactFormUrl =>
        -- Step 3: analyze the form on the contact page.
        let evs3 := evs2 ++ [ProcEvent.analyzerCalled contactFormUrl]
        match env.analyzeContactForm contactFormUrl with
        | none =>
          finishWith
            { id := company.id, name := company.name, homepage := homepage?
              contact_form_url := some contactFormUrl, status := "SKIPPED"
              message := some "No suitable contact form found on page" } evs3
        | some contactForm =>
          -- Step 4: fill and submit.
          let evs4 := evs3 ++ [ProcEvent.submitterCalled contactFormUrl]
          let submission := env.submit contactFormUrl contactForm
          finishWith
            { id := company.id, name := company.name, homepage := homepage?
              contact_form_url := some contactFormUrl
              status := if submission.success then "SUCCESS" else "FAILED" } evs4

/-! ## Worker (src/worker.js)

`processJob` destructures `{id, name, homepage, contact_form_url}` from
the job payload and passes an object with exactly those keys to
`processCompany`. -/

/-- The queue job payload fields the worker reads. -/
structure JobData where
  id : Nat
  name : String
  homepage : Option String
  contact_form_url : Option String
  deriving Repr, DecidableEq

/-- The object literal `{id, name, homepage, contact_form_url}` the
worker passes to `processCompany`: the keys `url` and `contact_url` are
absent, i.e. `undefined`. -/
def jobCompany (job : JobData) : Company :=
  { id := job.id, name := job.name, homepage := job.homepage
    contact_form_url := job.contact_form_url, url := none, contact_url := none }

/-- `worker.processJob` (the part that runs the pipeline). -/
def processJob (job : JobData) (env : ProcEnv) : ProcResult × List ProcEvent :=
  processCompany (jobCompany job) env

/-! ## Sample data for witnesses -/

/-- Recognizer of result-save events. -/
def isSavedResult : ProcEvent → Bool
  | ProcEvent.savedResult _ => true
  | _ => false

/-- A minimal extracted text input named `n` (all other attributes empty). -/
def sampleField (n : String) : InputField :=
  { tagName := "input", type := "text", name := n, id := "",
    placeholder := "", label := "", required := false, className := "",
    autocomplete := "" }

/-- `sampleField` with `required := true`, for the determinism witness. -/
def sampleFieldReq (n : String) : InputField :=
  { tagName := "input", type := "text", name := n, id := "",
    placeholder := "", label := "", required := true, className := "",
    autocomplete := "" }

/-- A categorized input with the given name and semantic type. -/
def sampleInput (n ft : String) : CategorizedInput :=
  { sampleField n with fieldType := ft }

/-- A `Send` submit button. -/
def sampleButton : SubmitButton :=
  { type := "button", text := "Send", id := "", className := "" }

/-- An analyzed contact form with an email field, a message field and a
submit button (score as computed by `calculateFormScore`). -/
def sampleForm : AnalyzedForm :=
  { index := 0, inputs := [sampleInput "email" "email", sampleInput "message" "message"],
    submitButtons := [sampleButton], score := 115 }

/-- A page whose fills and clicks succeed and that carries a reCAPTCHA
marker. -/
def sampleCaptchaPage : SubmitPage :=
  { navOk := true, fillById := fun _ => true, fillByName := fun _ => true,
    fillBySelector := fun _ => true, hasRecaptchaMarker := true,
    hasHcaptchaMarker := false, hasTurnstileMarker := false,
    hasCloudflareIframe := false, clickByIdWorks := fun _ => true,
    clickByKeywordWorks := true, finalUrl := "https://acme.test/contact",
    content := "" }

/-- A finder environment whose homepage has one `Contact Us` link. -/
def sampleFinderEnv : FinderEnv :=
  { links := some [{ text := "contact us", href := "https://acme.test/contact" }],
    pathStatus := fun _ => none }

/-- Invariants satisfied by every `ParsedUrl` the parser produces; they
are exactly what makes the serializer/parser pair a retraction. -/
def WFUrl (p : ParsedUrl) : Prop :=
  p.host ≠ []
    ∧ p.host.all (fun c => !forbiddenDomainChar c) = true
    ∧ p.host.map asciiLower = p.host
    ∧ (∀ n, p.port = some n → n ≤ 65535 ∧ n ≠ defaultPort p.secure)
    ∧ p.path ≠ []
    ∧ p.path.head? = some '/'
    ∧ p.path.all (fun c => !(c = '?' || c = '#' || c = '\\' || ctlChar c)) = true
    ∧ (∀ q, p.query = some q → q.all (fun c => !(c = '#' || ctlChar c)) = true)
    ∧ (∀ f, p.fragment = some f → f.all (fun c => !ctlChar c) = true)

/-! ## Claim theorems: orchestrator, worker, finder, submitter -/

/-- C1: every `processCompany` invocation saves exactly one result
record, the saved status is the returned status, and that status is one
of `SUCCESS`, `FAILED`, `SKIPPED`, `ERROR` — on every exit path
(certificate skip, no contact page, no suitable form, submission, and
the catch-all). -/
theorem processCompany_one_result (company : Company) (env : ProcEnv) :
    (processCompany company env).2.filter isSavedResult
        = [ProcEvent.savedResult (processCompany company env).1.status]
      ∧ ((processCompany company env).1.status = "SUCCESS"
        ∨ (processCompany company env).1.status = "FAILED"
        ∨ (processCompany company env).1.status = "SKIPPED"
        ∨ (processCompany company env).1.status = "ERROR") := by
  unfold processCompany
  dsimp only
  repeat' split
  all_goals simp_all [errorExit, finishWith, isSavedResult, List.filter_append]

/-- C9: the queue worker forwards only `{id, name, homepage,
contact_form_url}`, while `processCompany` reads `company.url` and
`company.contact_url`; hence every queue job runs with both read keys
undefined, name-based website detection always runs, and the result is
independent of any homepage or contact URL carried in the payload. -/
theorem processJob_urls_ignored (job : JobData) (env : ProcEnv)
    (h c : Option String) :
    (jobCompany job).url = none ∧ (jobCompany job).contact_url = none
      ∧ ProcEvent.detectWebsiteCalled job.name ∈ (processJob job env).2
      ∧ processJob { job with homepage := h, contact_form_url := c } env
          = processJob job env := by
  refine ⟨rfl, rfl, ?_, rfl⟩
  unfold processJob processCompany jobCompany
  dsimp only
  repeat' split
  all_goals simp_all [errorExit, finishWith, strTruthy]

/-- C10: without a supplied page, `findContactPage` returns absent
before attempting any discovery: `page` is a `const` binding and the
page-creation branch assigns to it, raising a `TypeError` that the
surrounding catch converts into a `null` return. -/
theorem findContactPage_requires_existing_page (homepage : String) (env : FinderEnv) :
    findContactPage homepage false env = (none, []) := rfl

/-- C8: with a supplied page, homepage-link analysis runs first and a
non-absent result is returned without direct-path probing; only when it
yields nothing does direct-path probing run, and the call returns the
probe result (absent when both strategies fail) rather than raising. -/
theorem findContactPage_strategy_order (homepage : String) (env : FinderEnv) :
    (∀ u, findByHomepageLinks env.links = some u →
      findContactPage homepage true env = (some u, [FinderStrategy.homepageLinks]))
      ∧ (findByHomepageLinks env.links = none →
        findContactPage homepage true env
          = (findByDirectUrl homepage env.pathStatus,
            [FinderStrategy.homepageLinks, FinderStrategy.directUrl])) := by
  constructor
  · intro u hu
    simp [findContactPage, hu]
  · intro hnone
    simp [findContactPage, hnone]

/-- Witness for C8 at a concrete homepage with one `contact us` link. -/
theorem findContactPage_strategy_order_witness :
    findContactPage "https://acme.test" true sampleFinderEnv
      = (some "https://acme.test/contact", [FinderStrategy.homepageLinks]) :=
  (findContactPage_strategy_order "https://acme.test" sampleFinderEnv).1
    "https://acme.test/contact" (by decide)

/-- Every action `fillFormFields` emits is a fill attempt. -/
theorem fillFormFields_trace_only_fills (page : SubmitPage) (inputs : List CategorizedInput) :
    ∀ a ∈ (fillFormFields page inputs).2, ∃ n, a = SubmitAction.fillAttempt n := by
  induction inputs with
  | nil => simp [fillFormFields]
  | cons i rest ih =>
    intro a ha
    unfold fillFormFields at ha
    dsimp only at ha
    split at ha
    · exact ih a ha
    · split at ha
      · exact ih a ha
      · rcases List.mem_cons.1 ha with h | h
        · exact ⟨i.name, h⟩
        · exact ih a h

/-- C2: when the challenge-widget scan fires, `submitForm` returns an
outcome with `hasCaptcha = true` and click success `false`, the submit
button is never clicked, and the interaction trace ends at the captcha
scan — no field-fill action happens after the detection point. -/
theorem submitForm_captcha_hard_stop (page : SubmitPage) (url : String) (form : AnalyzedForm)
    (hnav : page.navOk = true)
    (hfill : (fillFormFields page form.inputs).1 ≠ 0)
    (hcap : detectCaptcha page = true) :
    (submitForm page url form).1.hasCaptcha = true
      ∧ (submitForm page url form).1.success = false
      ∧ SubmitAction.clickSubmit ∉ (submitForm page url form).2
      ∧ (submitForm page url form).2.getLast? = some SubmitAction.captchaScan := by
  unfold submitForm
  dsimp only
  rw [hnav, hcap]
  simp only [Bool.not_true, Bool.false_eq_true, if_false, if_neg hfill, if_true]
  refine ⟨trivial, trivial, ?_, ?_⟩
  · intro hmem
    simp only [List.mem_append, List.mem_cons, List.mem_singleton] at hmem
    rcases hmem with ((h | h) | h | h) | h
    · exact absurd h (by decide)
    · obtain ⟨n, hn⟩ := fillFormFields_trace_only_fills page form.inputs _ h
      exact SubmitAction.noConfusion hn
    · exact absurd h (by decide)
    · exact absurd h (by decide)
    · exact absurd h (by decide)
  · exact List.getLast?_concat _

/-- Witness for C2 on a page carrying a reCAPTCHA marker. -/
theorem submitForm_captcha_hard_stop_witness :
    (submitForm sampleCaptchaPage "https://acme.test/contact" sampleForm).1.hasCaptcha = true
      ∧ SubmitAction.clickSubmit
          ∉ (submitForm sampleCaptchaPage "https://acme.test/contact" sampleForm).2 := by
  have h := submitForm_captcha_hard_stop sampleCaptchaPage "https://acme.test/contact" sampleForm
    rfl (by decide) rfl
  exact ⟨h.1, h.2.2.1⟩

/-! ## Claim theorems: analyzer scoring and classification -/

/-- The field-count term never goes below `-20`. -/
theorem fieldCountTerm_ge (n : Nat) : -20 ≤ fieldCountTerm n := by
  unfold fieldCountTerm; split_ifs <;> omega

/-- Adding one field moves the field-count term down by at most 30. -/
theorem fieldCountTerm_succ (n : Nat) : fieldCountTerm n - 30 ≤ fieldCountTerm (n + 1) := by
  unfold fieldCountTerm; split_ifs <;> omega

/-- C4: inserting one email-classified field into a form that has none
strictly increases `calculateFormScore`, at any position, under any
buttons — the `+40` email bonus dominates every field-count bucket
change (worst case `-30`). -/
theorem calculateFormScore_email_mono (pre post : List CategorizedInput)
    (btns : List SubmitButton) (f : CategorizedInput)
    (hnone : ∀ g ∈ pre ++ post, g.fieldType ≠ "email")
    (hf : f.fieldType = "email") :
    calculateFormScore (pre ++ post) btns < calculateFormScore (pre ++ f :: post) btns := by
  have hmail : ((pre ++ post).any fun i => decide (i.fieldType = "email")) = false := by
    rw [List.any_eq_false]
    intro g hg
    simpa using hnone g hg
  have hmail2 : ((pre ++ f :: post).any fun i => decide (i.fieldType = "email")) = true := by
    rw [List.any_eq_true]
    exact ⟨f, by simp, by simp [hf]⟩
  have hswap : ∀ p : CategorizedInput → Bool, p f = false →
      (pre ++ f :: post).any p = (pre ++ post).any p := by
    intro p hp
    simp [List.any_append, List.any_cons, hp]
  have hlen : (pre ++ f :: post).length = (pre ++ post).length + 1 := by
    simp [List.length_append]
    omega
  unfold calculateFormScore
  rw [hmail, hmail2, hlen,
    hswap _ (by simp [hf]),
    hswap (fun i => decide (i.fieldType = "fullname") || decide (i.fieldType = "firstname")
      || decide (i.fieldType = "lastname")) (by simp [hf]),
    hswap _ (by simp [hf])]
  have := fieldCountTerm_succ (pre ++ post).length
  simp only [if_true, if_false, Bool.false_eq_true]
  linarith

/-- Witness for C4: adding an email field to a message-only form. -/
theorem calculateFormScore_email_mono_witness :
    calculateFormScore ([] ++ [sampleInput "message" "message"]) [sampleButton]
      < calculateFormScore ([] ++ sampleInput "email" "email" :: [sampleInput "message" "message"])
        [sampleButton] :=
  calculateFormScore_email_mono [] [sampleInput "message" "message"] [sampleButton]
    (sampleInput "email" "email") (by decide) (by decide)

/-- A form with an email field, a message field and a submit button
scores at least 70 regardless of everything else. -/
theorem calculateFormScore_core_lb (inputs : List CategorizedInput) (btns : List SubmitButton)
    (he : (inputs.any fun i => i.fieldType = "email") = true)
    (hm : (inputs.any fun i => i.fieldType = "message") = true)
    (hb : btns ≠ []) :
    70 ≤ calculateFormScore inputs btns := by
  unfold calculateFormScore
  rw [he, hm]
  cases btns with
  | nil => exact absurd rfl hb
  | cons b t =>
    dsimp only
    split_ifs <;> simp_all <;> linarith [fieldCountTerm_ge inputs.length]

/-- C3: a form with email, message and a submit control scores at or
above the acceptance threshold (in fact at least 70, so at least 30),
and `findBestContactForm` returns a form rather than reporting no
suitable form whenever such a form is among the candidates. -/
theorem findBestContactForm_accepts (forms : List AnalyzedForm) (f : AnalyzedForm)
    (hmem : f ∈ forms)
    (hscores : ∀ g ∈ forms, g.score = calculateFormScore g.inputs g.submitButtons)
    (he : formHasEmail f = true) (hm : formHasMessage f = true)
    (hb : f.submitButtons ≠ []) :
    30 ≤ f.score ∧ ∃ best, findBestContactForm forms = some best := by
  have hf70 : 70 ≤ f.score := by
    rw [hscores f hmem]
    exact calculateFormScore_core_lb _ _ he hm hb
  refine ⟨by linarith, ?_⟩
  unfold findBestContactForm
  have hne : forms.isEmpty = false := by
    cases forms
    · simp at hmem
    · rfl
  rw [hne]
  simp only [Bool.false_eq_true, if_false]
  cases hsorted : forms.insertionSort scoreDesc with
  | nil =>
    have : f ∈ forms.insertionSort scoreDesc :=
      (List.perm_insertionSort scoreDesc forms).mem_iff.2 hmem
    rw [hsorted] at this
    simp at this
  | cons top t =>
    have hf' : f ∈ top :: t := by
      have : f ∈ forms.insertionSort scoreDesc :=
        (List.perm_insertionSort scoreDesc forms).mem_iff.2 hmem
      rwa [hsorted] at this
    have hsort : List.Sorted scoreDesc (top :: t) := by
      have := List.sorted_insertionSort scoreDesc forms
      rwa [hsorted] at this
    have htop : 30 ≤ top.score := by
      rcases List.mem_cons.1 hf' with rfl | hmem'
      · linarith
      · have := List.rel_of_sorted_cons hsort f hmem'
        unfold scoreDesc at this
        linarith
    dsimp only
    rw [if_pos htop]
    exact ⟨top, rfl⟩

/-- Witness for C3 at a one-form candidate list. -/
theorem findBestContactForm_accepts_witness :
    30 ≤ sampleForm.score ∧ ∃ best, findBestContactForm [sampleForm] = some best :=
  findBestContactForm_accepts [sampleForm] sampleForm (by decide) (by decide)
    (by decide) (by decide) (by decide)

/-- C7: `detectFieldType` is a pure function of the eight attribute
strings — equal attributes give an equal semantic type — and in
particular `user_email` classifies as `email`, `tel_number` as `phone`,
and an unmatched field defaults to `text`. -/
theorem detectFieldType_deterministic (a b : InputField)
    (h1 : a.name = b.name) (h2 : a.id = b.id) (h3 : a.placeholder = b.placeholder)
    (h4 : a.label = b.label) (h5 : a.className = b.className)
    (h6 : a.autocomplete = b.autocomplete) (h7 : a.type = b.type) (h8 : a.tagName = b.tagName) :
    detectFieldType a = detectFieldType b
      ∧ detectFieldType (sampleField "user_email") = "email"
      ∧ detectFieldType (sampleField "tel_number") = "phone"
      ∧ detectFieldType (sampleField "zzz") = "text" := by
  refine ⟨?_, by decide, by decide, by decide⟩
  cases a
  cases b
  dsimp only at h1 h2 h3 h4 h5 h6 h7 h8
  subst h1 h2 h3 h4 h5 h6 h7 h8
  rfl

/-- Witness for C7: two fields equal on all classified attributes but
differing in `required` classify identically. -/
theorem detectFieldType_deterministic_witness :
    detectFieldType (sampleFieldReq "user_email") = detectFieldType (sampleField "user_email") :=
  (detectFieldType_deterministic (sampleFieldReq "user_email") (sampleField "user_email")
    rfl rfl rfl rfl rfl rfl rfl rfl).1

/-! ## Claim theorems: URL resolver -/

/-- All-whitespace input trims to nothing. -/
theorem trimChars_nil_of_ws (l : List Char) (h : ∀ c ∈ l, jsWsChar c = true) :
    trimChars l = [] := by
  unfold trimChars
  have h1 : l.dropWhile jsWsChar = [] := by
    rw [List.dropWhile_eq_nil_iff]
    exact fun c hc => h c hc
  rw [h1]
  rfl

/-- C6: `normalizeUrl` returns absent for empty and whitespace-only
input (and models exceptions as `none`, never letting them escape), and
`normalizeUrl "example.com"` yields a URL with an explicit `https`
scheme. -/
theorem normalizeUrl_absent_and_https (s : String) (h : ∀ c ∈ s.toList, jsWsChar c = true) :
    normalizeUrl s = none
      ∧ ∃ u, normalizeUrl "example.com" = some u
        ∧ "https://".toList.isPrefixOf u.toList = true := by
  refine ⟨?_, "https://example.com/", by decide, by decide⟩
  unfold normalizeUrl normalizeUrlChars
  by_cases hs : s.toList.isEmpty
  · rw [if_pos hs]
    rfl
  · rw [if_neg hs]
    dsimp only
    rw [trimChars_nil_of_ws s.toList h]
    rfl

/-- Witness for C6 at whitespace-only input. -/
theorem normalizeUrl_absent_and_https_witness :
    normalizeUrl "   " = none
      ∧ ∃ u, normalizeUrl "example.com" = some u
        ∧ "https://".toList.isPrefixOf u.toList = true :=
  normalizeUrl_absent_and_https "   " (by decide)

theorem char_toNat_ofNat (n : Nat) (h : n < 55296) : (Char.ofNat n).toNat = n := by
  unfold Char.ofNat
  rw [dif_pos (Or.inl h)]
  rfl

theorem asciiLower_toNat (c : Char) :
    (asciiLower c).toNat = if 65 ≤ c.toNat ∧ c.toNat ≤ 90 then c.toNat + 32 else c.toNat := by
  unfold asciiLower
  split_ifs with h
  · exact char_toNat_ofNat _ (by omega)
  · rfl

theorem asciiLower_idem (c : Char) : asciiLower (asciiLower c) = asciiLower c := by
  by_cases h : 65 ≤ c.toNat ∧ c.toNat ≤ 90
  · have ht : (asciiLower c).toNat = c.toNat + 32 := by
      rw [asciiLower_toNat, if_pos h]
    show (if 65 ≤ (asciiLower c).toNat ∧ (asciiLower c).toNat ≤ 90 then _ else _) = _
    rw [if_neg (by omega)]
  · show (if 65 ≤ (asciiLower c).toNat ∧ (asciiLower c).toNat ≤ 90 then _ else _) = _
    have hc : asciiLower c = c := by unfold asciiLower; rw [if_neg h]
    rw [hc, if_neg h]

theorem asciiLower_not_forbidden (c : Char) (h : forbiddenDomainChar c = false) :
    forbiddenDomainChar (asciiLower c) = false := by
  have ht := asciiLower_toNat c
  unfold forbiddenDomainChar at h ⊢
  simp only [Bool.or_eq_false_iff, decide_eq_false_iff_not] at h ⊢
  split_ifs at ht with hr
  · omega
  · omega

theorem map_asciiLower_idem (l : List Char) :
    (l.map asciiLower).map asciiLower = l.map asciiLower := by
  rw [List.map_map]
  exact List.map_congr_left fun c _ => asciiLower_idem c

theorem forbidden_all_lower (l : List Char) (h : l.all (fun c => !forbiddenDomainChar c) = true) :
    (l.map asciiLower).all (fun c => !forbiddenDomainChar c) = true := by
  rw [List.all_eq_true] at h ⊢
  intro c hc
  rw [List.mem_map] at hc
  obtain ⟨d, hd, rfl⟩ := hc
  have := h d hd
  simp only [Bool.not_eq_true'] at this ⊢
  exact asciiLower_not_forbidden d this

theorem pctDecode_eq_self (l : List Char) (h : '%' ∉ l) : pctDecode l = l := by
  induction l with
  | nil => rfl
  | cons c rest ih =>
    have hc : c ≠ '%' := fun hcc => h (hcc ▸ List.mem_cons_self c rest)
    have hrest : '%' ∉ rest := fun hm => h (List.mem_cons_of_mem c hm)
    cases rest with
    | nil => simp [pctDecode, hc]
    | cons a rest2 =>
      cases rest2 with
      | nil => simp [pctDecode, hc, ih hrest]
      | cons b rest3 => simp [pctDecode, hc, ih hrest]

theorem digitChar_mem (d : Nat) (h : d < 10) : digitChar d ∈ digitList := by
  interval_cases d <;> decide

theorem decDigit?_digitChar (d : Nat) (h : d < 10) : decDigit? (digitChar d) = some d := by
  interval_cases d <;> decide

theorem digitList_props (c : Char) (h : c ∈ digitList) :
    authTermChar c = false ∧ ctlChar c = false ∧ c ≠ '@' := by
  fin_cases h <;> exact ⟨rfl, rfl, by decide⟩

theorem natToCharsAux_mem : ∀ fuel n, n < fuel → ∀ c ∈ natToCharsAux fuel n, c ∈ digitList := by
  intro fuel
  induction fuel with
  | zero => intro n h; omega
  | succ fuel ih =>
    intro n h c hc
    rw [natToCharsAux] at hc
    by_cases hn : n < 10
    · rw [if_pos hn] at hc
      rcases List.mem_singleton.1 hc with rfl
      exact digitChar_mem n hn
    · rw [if_neg hn] at hc
      have hdiv : n / 10 < fuel := by
        have h1 : n / 10 < n := Nat.div_lt_self (by omega) (by omega)
        omega
      rcases List.mem_append.1 hc with h1 | h1
      · exact ih (n / 10) hdiv c h1
      · rcases List.mem_singleton.1 h1 with rfl
        exact digitChar_mem _ (Nat.mod_lt n (by omega))

theorem readDigits_append (acc : Nat) (xs ys : List Char) :
    readDigits acc (xs ++ ys)
      = match readDigits acc xs with
        | some m => readDigits m ys
        | none => none := by
  induction xs generalizing acc with
  | nil => simp [readDigits]
  | cons c rest ih =>
    simp only [List.cons_append, readDigits]
    cases hd : decDigit? c with
    | none => simp
    | some d =>
      simp only []
      exact ih (acc * 10 + d)

theorem readDigits_natToCharsAux : ∀ fuel n, n < fuel →
    readDigits 0 (natToCharsAux fuel n) = some n := by
  intro fuel
  induction fuel with
  | zero => intro n h; omega
  | succ fuel ih =>
    intro n h
    rw [natToCharsAux]
    by_cases hn : n < 10
    · rw [if_pos hn]
      unfold readDigits
      rw [decDigit?_digitChar n hn]
      simp [readDigits]
    · rw [if_neg hn]
      have hdiv : n / 10 < fuel := by
        have h1 : n / 10 < n := Nat.div_lt_self (by omega) (by omega)
        omega
      rw [readDigits_append, ih (n / 10) hdiv]
      unfold readDigits
      rw [decDigit?_digitChar _ (Nat.mod_lt n (by omega))]
      show readDigits (n / 10 * 10 + n % 10) [] = some n
      unfold readDigits
      congr 1
      omega

theorem natToChars_ne_nil (n : Nat) : natToChars n ≠ [] := by
  unfold natToChars natToCharsAux
  by_cases hn : n < 10
  · rw [if_pos hn]; simp
  · rw [if_neg hn]; simp

theorem natToChars_mem (n : Nat) : ∀ c ∈ natToChars n, c ∈ digitList :=
  natToCharsAux_mem (n + 1) n (by omega)

theorem charsToNat?_natToChars (n : Nat) : charsToNat? (natToChars n) = some n := by
  unfold charsToNat?
  rw [if_neg (by simpa using natToChars_ne_nil n)]
  exact readDigits_natToCharsAux (n + 1) n (by omega)

theorem takeWhile_append_all {p : Char → Bool} (xs ys : List Char)
    (h : ∀ c ∈ xs, p c = true) :
    (xs ++ ys).takeWhile p = xs ++ ys.takeWhile p := by
  induction xs with
  | nil => rfl
  | cons c rest ih =>
    have hc : p c = true := h c (List.mem_cons_self c rest)
    simp only [List.cons_append, List.takeWhile_cons, hc, if_true]
    rw [ih fun d hd => h d (List.mem_cons_of_mem c hd)]

theorem dropWhile_append_all {p : Char → Bool} (xs ys : List Char)
    (h : ∀ c ∈ xs, p c = true) :
    (xs ++ ys).dropWhile p = ys.dropWhile p := by
  induction xs with
  | nil => rfl
  | cons c rest ih =>
    have hc : p c = true := h c (List.mem_cons_self c rest)
    simp only [List.cons_append, List.dropWhile_cons, hc, if_true]
    exact ih fun d hd => h d (List.mem_cons_of_mem c hd)

theorem takeWhile_cons_neg {p : Char → Bool} {c : Char} (l : List Char) (h : p c = false) :
    (c :: l).takeWhile p = [] := by
  simp [List.takeWhile_cons, h]

theorem dropWhile_cons_neg {p : Char → Bool} {c : Char} (l : List Char) (h : p c = false) :
    (c :: l).dropWhile p = c :: l := by
  simp [List.dropWhile_cons, h]

theorem splitAtFirst_not_mem {t : Char} {l : List Char} (h : t ∉ l) :
    splitAtFirst t l = (l, none) := by
  induction l with
  | nil => rfl
  | cons c rest ih =>
    have hc : c ≠ t := fun hc => h (hc ▸ List.mem_cons_self c rest)
    unfold splitAtFirst
    rw [if_neg (fun hh => hc hh), ih fun hm => h (List.mem_cons_of_mem c hm)]

theorem splitAtFirst_append {t : Char} {xs : List Char} (ys : List Char) (h : t ∉ xs) :
    splitAtFirst t (xs ++ t :: ys) = (xs, some ys) := by
  induction xs with
  | nil => simp [splitAtFirst]
  | cons c rest ih =>
    have hc : c ≠ t := fun hc => h (hc ▸ List.mem_cons_self c rest)
    simp only [List.cons_append]
    unfold splitAtFirst
    rw [if_neg (fun hh => hc hh), ih fun hm => h (List.mem_cons_of_mem c hm)]

theorem splitAtFirst_recon {t : Char} {l ys : List Char}
    (h : (splitAtFirst t l).2 = some ys) :
    l = (splitAtFirst t l).1 ++ t :: ys := by
  induction l with
  | nil => simp [splitAtFirst] at h
  | cons c rest ih =>
    by_cases hc : c = t
    · subst hc
      unfold splitAtFirst at h ⊢
      rw [if_pos rfl] at h ⊢
      simp at h
      simp [h]
    · unfold splitAtFirst at h ⊢
      rw [if_neg hc] at h ⊢
      simp only [] at h
      simpa using ih h

theorem splitAtFirst_recon_none {t : Char} {l : List Char}
    (h : (splitAtFirst t l).2 = none) :
    (splitAtFirst t l).1 = l := by
  induction l with
  | nil => rfl
  | cons c rest ih =>
    by_cases hc : c = t
    · subst hc
      unfold splitAtFirst at h
      rw [if_pos rfl] at h
      simp at h
    · unfold splitAtFirst at h ⊢
      rw [if_neg hc] at h ⊢
      simpa using ih h

theorem splitAtFirst_fst_not_mem (t : Char) (l : List Char) :
    t ∉ (splitAtFirst t l).1 := by
  induction l with
  | nil => simp [splitAtFirst]
  | cons c rest ih =>
    by_cases hc : c = t
    · subst hc
      unfold splitAtFirst
      rw [if_pos rfl]
      simp
    · unfold splitAtFirst
      rw [if_neg hc]
      intro hm
      rcases List.mem_cons.1 hm with rfl | hm
      · exact hc rfl
      · exact ih hm

theorem not_forbidden_not_ctl (c : Char) (h : forbiddenDomainChar c = false) :
    ctlChar c = false := by
  unfold forbiddenDomainChar at h
  unfold ctlChar
  simp only [Bool.or_eq_false_iff, decide_eq_false_iff_not] at h ⊢
  omega

theorem not_forbidden_ne (c t : Char) (h : forbiddenDomainChar c = false)
    (ht : forbiddenDomainChar t = true) : c ≠ t := by
  rintro rfl
  rw [ht] at h
  cases h

theorem not_forbidden_not_slash (c : Char) (h : forbiddenDomainChar c = false) :
    slashChar c = false := by
  unfold slashChar
  simp only [Bool.or_eq_false_iff, decide_eq_false_iff_not]
  exact ⟨not_forbidden_ne c '/' h (by decide), not_forbidden_ne c '\\' h (by decide)⟩

theorem not_forbidden_not_authTerm (c : Char) (h : forbiddenDomainChar c = false) :
    authTermChar c = false := by
  unfold authTermChar
  simp only [Bool.or_eq_false_iff, decide_eq_false_iff_not]
  exact ⟨⟨⟨not_forbidden_ne c '/' h (by decide), not_forbidden_ne c '?' h (by decide)⟩,
    not_forbidden_ne c '#' h (by decide)⟩, not_forbidden_ne c '\\' h (by decide)⟩

theorem stripCtl_eq_self (l : List Char) (h : ∀ c ∈ l, ctlChar c = false) :
    stripCtl l = l := by
  unfold stripCtl
  rw [List.filter_eq_self]
  intro a ha
  rw [h a ha]
  rfl

theorem https_prefix_of_append (rest : List Char) :
    "https://".toList.isPrefixOf ("https://".toList ++ rest) = true :=
  List.isPrefixOf_iff_prefix.mpr (List.prefix_append _ _)

theorem http_prefix_of_append (rest : List Char) :
    "http://".toList.isPrefixOf ("http://".toList ++ rest) = true :=
  List.isPrefixOf_iff_prefix.mpr (List.prefix_append _ _)

theorem https_not_prefix_http (rest : List Char) :
    "https://".toList.isPrefixOf ("http://".toList ++ rest) = false := by
  show "https://".toList.isPrefixOf ('h' :: 't' :: 't' :: 'p' :: ':' :: '/' :: '/' :: rest) = false
  simp [List.isPrefixOf]

theorem drop8_https (rest : List Char) :
    ("https://".toList ++ rest).drop 8 = rest := by
  have h : ("https://".toList).length = 8 := rfl
  rw [← h, List.drop_left]

theorem drop7_http (rest : List Char) :
    ("http://".toList ++ rest).drop 7 = rest := by
  have h : ("http://".toList).length = 7 := rfl
  rw [← h, List.drop_left]

theorem splitAtFirst_cons_ne (t c : Char) (l : List Char) (h : c ≠ t) :
    splitAtFirst t (c :: l) = (c :: (splitAtFirst t l).1, (splitAtFirst t l).2) := by
  have e : splitAtFirst t (c :: l)
      = if c = t then ([], some l) else (c :: (splitAtFirst t l).1, (splitAtFirst t l).2) := rfl
  rw [e, if_neg h]

theorem splitAtFirst_cons_eq (t : Char) (l : List Char) :
    splitAtFirst t (t :: l) = ([], some l) := by
  have e : splitAtFirst t (t :: l)
      = if t = t then ([], some l) else (t :: (splitAtFirst t l).1, (splitAtFirst t l).2) := rfl
  rw [e, if_pos rfl]

theorem parseAfterScheme_auth (sec : Bool) (host : List Char) (port : Option Nat)
    (tail : List Char)
    (hhost : ∀ c ∈ host, forbiddenDomainChar c = false)
    (hhne : host ≠ [])
    (hlow : host.map asciiLower = host)
    (hport : ∀ n, port = some n → n ≤ 65535 ∧ n ≠ defaultPort sec)
    (hth : tail.head? = some '/') :
    parseAfterScheme sec
        (host ++ (portChars port ++ tail))
      = some { secure := sec, host := host, port := port,
               path := ((splitAtFirst '?' (splitAtFirst '#' tail).1).1).map slashFix,
               query := (splitAtFirst '?' (splitAtFirst '#' tail).1).2,
               fragment := (splitAtFirst '#' tail).2 } := by
  obtain ⟨t0, tr, rfl⟩ : ∃ t0 tr, tail = t0 :: tr := by
    cases tail with
    | nil => simp at hth
    | cons a b => exact ⟨a, b, rfl⟩
  have ht0 : t0 = '/' := by simpa using hth
  subst ht0
  obtain ⟨h0, hr, rfl⟩ : ∃ h0 hr, host = h0 :: hr := by
    cases host with
    | nil => exact absurd rfl hhne
    | cons a b => exact ⟨a, b, rfl⟩
  have hh0 : forbiddenDomainChar h0 = false := hhost h0 (List.mem_cons_self _ _)
  -- the port section characters
  have hppChars : ∀ c ∈ portChars port,
      (!authTermChar c) = true ∧ c ≠ '@' := by
    intro c hc
    cases port with
    | none => simp [portChars] at hc
    | some n =>
      simp only [portChars] at hc
      rcases List.mem_cons.1 hc with rfl | hc
      · exact ⟨by decide, by decide⟩
      · have hd := natToChars_mem n c hc
        have hp := digitList_props c hd
        exact ⟨by simp [hp.1], hp.2.2⟩
  have hauthHost : ∀ c ∈ h0 :: hr, (!authTermChar c) = true := by
    intro c hc
    simp [not_forbidden_not_authTerm c (hhost c hc)]
  -- step 1: no slashes are skipped
  have hslash : ((h0 :: hr) ++ (portChars port ++ '/' :: tr)).dropWhile slashChar
      = (h0 :: hr) ++ (portChars port ++ '/' :: tr) := by
    rw [List.cons_append, dropWhile_cons_neg _ (not_forbidden_not_slash h0 hh0)]
  -- step 2: the authority section
  have htake : ((h0 :: hr) ++ (portChars port ++ '/' :: tr)).takeWhile (fun c => !authTermChar c)
      = (h0 :: hr) ++ portChars port := by
    rw [takeWhile_append_all _ _ hauthHost,
      takeWhile_append_all _ _ (fun c hc => (hppChars c hc).1),
      takeWhile_cons_neg _ (by decide), List.append_nil]
  have hdrop : ((h0 :: hr) ++ (portChars port ++ '/' :: tr)).dropWhile (fun c => !authTermChar c)
      = '/' :: tr := by
    rw [dropWhile_append_all _ _ hauthHost,
      dropWhile_append_all _ _ (fun c hc => (hppChars c hc).1),
      dropWhile_cons_neg _ (by decide)]
  have hat : '@' ∉ (h0 :: hr) ++ portChars port := by
    intro hm
    rcases List.mem_append.1 hm with hm | hm
    · exact not_forbidden_ne '@' '@' (hhost _ hm) (by decide) rfl
    · exact (hppChars _ hm).2 rfl
  have hsplit : splitAtFirst ':' ((h0 :: hr) ++ portChars port)
      = (h0 :: hr, port.map natToChars) := by
    have hnc : ':' ∉ h0 :: hr := fun hm =>
      not_forbidden_ne ':' ':' (hhost _ hm) (by decide) rfl
    cases port with
    | none => simpa [portChars] using splitAtFirst_not_mem hnc
    | some n => simpa [portChars] using splitAtFirst_append (natToChars n) hnc
  have hdecode : pctDecode (h0 :: hr) = h0 :: hr :=
    pctDecode_eq_self _ fun hm => not_forbidden_ne '%' '%' (hhost _ hm) (by decide) rfl
  have hanyf : (h0 :: hr).any forbiddenDomainChar = false :=
    List.any_eq_false.2 fun c hc => by simp [hhost c hc]
  have hparseport : parsePort sec (port.map natToChars) = some port := by
    cases port with
    | none => rfl
    | some n =>
      simp only [Option.map_some', parsePort]
      rw [if_neg (by simpa using natToChars_ne_nil n), charsToNat?_natToChars]
      dsimp only
      rw [if_neg (by have := (hport n rfl).1; omega), if_neg (hport n rfl).2]
  unfold parseAfterScheme
  rw [hslash]
  dsimp only
  rw [htake, hdrop, if_neg hat, hsplit]
  dsimp only
  rw [hdecode]
  simp only [List.isEmpty_cons, Bool.false_eq_true, if_false, hanyf, hparseport, hlow]
  have h1 := splitAtFirst_cons_ne '#' '/' tr (by decide)
  have h2 := splitAtFirst_cons_ne '?' '/' (splitAtFirst '#' tr).1 (by decide)
  rw [h1]
  dsimp only
  rw [h2]
  rfl

theorem splitAtFirst_fst_mem {t c : Char} {l : List Char}
    (h : c ∈ (splitAtFirst t l).1) : c ∈ l := by
  cases h2 : (splitAtFirst t l).2 with
  | none => rw [splitAtFirst_recon_none h2] at h; exact h
  | some ys =>
    rw [splitAtFirst_recon h2]
    exact List.mem_append.2 (Or.inl h)

theorem splitAtFirst_snd_mem {t c : Char} {l ys : List Char}
    (h2 : (splitAtFirst t l).2 = some ys) (h : c ∈ ys) : c ∈ l := by
  rw [splitAtFirst_recon h2]
  exact List.mem_append.2 (Or.inr (List.mem_cons_of_mem t h))

theorem parsePort_bounds {sec : Bool} {x : Option (List Char)} {port : Option Nat}
    (h : parsePort sec x = some port) :
    ∀ n, port = some n → n ≤ 65535 ∧ n ≠ defaultPort sec := by
  intro n hn
  subst hn
  cases x with
  | none => simp [parsePort] at h
  | some ds =>
    simp only [parsePort] at h
    split_ifs at h with h1
    · simp at h
    · cases hc : charsToNat? ds with
      | none => rw [hc] at h; simp at h
      | some m =>
        rw [hc] at h
        dsimp only at h
        split_ifs at h with h2 h3
        · simp at h
        · simp only [Option.some_inj] at h
          subst h
          exact ⟨by omega, h3⟩

/-- Splitting the serialized tail recovers path, query and fragment. -/
theorem tail_split (path : List Char) (query frag : Option (List Char))
    (hpchars : path.all (fun c => !(c = '?' || c = '#' || c = '\\' || ctlChar c)) = true)
    (hqchars : ∀ q, query = some q → q.all (fun c => !(c = '#' || ctlChar c)) = true) :
    (splitAtFirst '#' (path ++ (queryChars query ++ fragChars frag))).1
        = path ++ queryChars query
      ∧ (splitAtFirst '#' (path ++ (queryChars query ++ fragChars frag))).2 = frag
      ∧ (splitAtFirst '?' (path ++ queryChars query)).1 = path
      ∧ (splitAtFirst '?' (path ++ queryChars query)).2 = query := by
  have hpath : ∀ c ∈ path, c ≠ '?' ∧ c ≠ '#' := by
    intro c hc
    have := List.all_eq_true.1 hpchars c hc
    simp only [Bool.not_eq_true', Bool.or_eq_false_iff, decide_eq_false_iff_not] at this
    exact ⟨this.1.1.1, this.1.1.2⟩
  have hnohash : '#' ∉ path ++ queryChars query := by
    intro hm
    rcases List.mem_append.1 hm with hm | hm
    · exact (hpath _ hm).2 rfl
    · cases query with
      | none => simp [queryChars] at hm
      | some q =>
        simp only [queryChars] at hm
        rcases List.mem_cons.1 hm with he | hm
        · exact absurd he (by decide)
        · have := List.all_eq_true.1 (hqchars q rfl) _ hm
          simp at this
  have hhash : splitAtFirst '#' (path ++ (queryChars query ++ fragChars frag))
      = (path ++ queryChars query, frag) := by
    cases frag with
    | none =>
      simp only [fragChars, List.append_nil]
      exact splitAtFirst_not_mem hnohash
    | some f =>
      simp only [fragChars]
      rw [← List.append_assoc]
      exact splitAtFirst_append f hnohash
  have hq : splitAtFirst '?' (path ++ queryChars query) = (path, query) := by
    have hnoq : '?' ∉ path := fun hm => (hpath _ hm).1 rfl
    cases query with
    | none =>
      simp only [queryChars, List.append_nil]
      exact splitAtFirst_not_mem hnoq
    | some q =>
      simp only [queryChars]
      exact splitAtFirst_append q hnoq
  exact ⟨by rw [hhash], by rw [hhash], by rw [hq], by rw [hq]⟩

theorem serializeUrl_roundtrip (p : ParsedUrl) (hwf : WFUrl p) :
    parseHttpUrl (serializeUrl p) = some p := by
  obtain ⟨sec, host, port, path, query, frag⟩ := p
  obtain ⟨hne, hforb, hlow, hport, hpne, hphead, hpchars, hqchars, hfchars⟩ := hwf
  dsimp only at *
  have hhost : ∀ c ∈ host, forbiddenDomainChar c = false := fun c hc => by
    simpa using List.all_eq_true.1 hforb c hc
  have hpath3 : ∀ c ∈ path, c ≠ '?' ∧ c ≠ '#' ∧ c ≠ '\\' ∧ ctlChar c = false := by
    intro c hc
    have := List.all_eq_true.1 hpchars c hc
    simp only [Bool.not_eq_true', Bool.or_eq_false_iff, decide_eq_false_iff_not] at this
    exact ⟨this.1.1.1, this.1.1.2, this.1.2, this.2⟩
  have hmap : path.map slashFix = path := by
    have : ∀ c ∈ path, slashFix c = id c := by
      intro c hc
      unfold slashFix
      rw [if_neg (hpath3 c hc).2.2.1]
      rfl
    rw [List.map_congr_left this, List.map_id]
  obtain ⟨p0, pr, rfl⟩ : ∃ p0 pr, path = p0 :: pr := by
    cases path with
    | nil => exact absurd rfl hpne
    | cons a b => exact ⟨a, b, rfl⟩
  have hp0 : p0 = '/' := by simpa using hphead
  subst hp0
  have hhead : (('/' :: pr) ++ (queryChars query ++ fragChars frag)).head? = some '/' := rfl
  have hAS : parseAfterScheme sec
      (host ++ (portChars port ++ (('/' :: pr) ++ (queryChars query ++ fragChars frag))))
      = some ⟨sec, host, port, '/' :: pr, query, frag⟩ := by
    have h1 := parseAfterScheme_auth sec host port
      (('/' :: pr) ++ (queryChars query ++ fragChars frag)) hhost hne hlow hport hhead
    have h2 := tail_split ('/' :: pr) query frag hpchars hqchars
    rw [h1, h2.1, h2.2.1, h2.2.2.1, h2.2.2.2, hmap]
  have hrest : ∀ c ∈ host
      ++ (portChars port ++ (('/' :: pr) ++ (queryChars query ++ fragChars frag))),
      ctlChar c = false := by
    intro c hc
    rcases List.mem_append.1 hc with hc | hc
    · exact not_forbidden_not_ctl c (hhost c hc)
    rcases List.mem_append.1 hc with hc | hc
    · cases port with
      | none => simp [portChars] at hc
      | some n =>
        simp only [portChars] at hc
        rcases List.mem_cons.1 hc with rfl | hc
        · decide
        · exact (digitList_props c (natToChars_mem n c hc)).2.1
    rcases List.mem_append.1 hc with hc | hc
    · exact (hpath3 c hc).2.2.2
    rcases List.mem_append.1 hc with hc | hc
    · cases query with
      | none => simp [queryChars] at hc
      | some q =>
        simp only [queryChars] at hc
        rcases List.mem_cons.1 hc with rfl | hc
        · decide
        · have := List.all_eq_true.1 (hqchars q rfl) c hc
          simp only [Bool.not_eq_true', Bool.or_eq_false_iff] at this
          exact this.2
    · cases frag with
      | none => simp [fragChars] at hc
      | some f =>
        simp only [fragChars] at hc
        rcases List.mem_cons.1 hc with rfl | hc
        · decide
        · have := List.all_eq_true.1 (hfchars f rfl) c hc
          simpa using this
  cases sec with
  | true =>
    have hser : serializeUrl ⟨true, host, port, '/' :: pr, query, frag⟩
        = "https://".toList
          ++ (host ++ (portChars port ++ (('/' :: pr)
            ++ (queryChars query ++ fragChars frag)))) := by
      unfold serializeUrl
      dsimp only
      simp [List.append_assoc]
    have hs : ∀ c ∈ "https://".toList, ctlChar c = false := by decide
    unfold parseHttpUrl
    rw [hser]
    dsimp only
    rw [stripCtl_eq_self _ (fun c hc => by
      rcases List.mem_append.1 hc with hc | hc
      · exact hs c hc
      · exact hrest c hc)]
    rw [https_prefix_of_append, if_pos rfl, drop8_https]
    exact hAS
  | false =>
    have hser : serializeUrl ⟨false, host, port, '/' :: pr, query, frag⟩
        = "http://".toList
          ++ (host ++ (portChars port ++ (('/' :: pr)
            ++ (queryChars query ++ fragChars frag)))) := by
      unfold serializeUrl
      dsimp only
      simp [List.append_assoc]
    have hs : ∀ c ∈ "http://".toList, ctlChar c = false := by decide
    unfold parseHttpUrl
    rw [hser]
    dsimp only
    rw [stripCtl_eq_self _ (fun c hc => by
      rcases List.mem_append.1 hc with hc | hc
      · exact hs c hc
      · exact hrest c hc)]
    rw [https_not_prefix_http, if_neg (by decide), http_prefix_of_append, if_pos rfl, drop7_http]
    exact hAS

theorem parseAfterScheme_wf {sec : Bool} {rest : List Char} {p : ParsedUrl}
    (hctl : ∀ c ∈ rest, ctlChar c = false)
    (h : parseAfterScheme sec rest = some p) : WFUrl p := by
  unfold parseAfterScheme at h
  dsimp only at h
  by_cases hat : '@' ∈ (rest.dropWhile slashChar).takeWhile (fun c => !authTermChar c)
  · rw [if_pos hat] at h; cases h
  rw [if_neg hat] at h
  by_cases hemp :
      (pctDecode (splitAtFirst ':'
        ((rest.dropWhile slashChar).takeWhile (fun c => !authTermChar c))).1).isEmpty
  · rw [if_pos hemp] at h; cases h
  rw [if_neg hemp] at h
  by_cases hforb : (pctDecode (splitAtFirst ':'
      ((rest.dropWhile slashChar).takeWhile (fun c => !authTermChar c))).1).any
      forbiddenDomainChar
  · rw [if_pos hforb] at h; cases h
  rw [if_neg hforb] at h
  cases hpp : parsePort sec (splitAtFirst ':'
      ((rest.dropWhile slashChar).takeWhile (fun c => !authTermChar c))).2 with
  | none => rw [hpp] at h; cases h
  | some port =>
    rw [hpp] at h
    dsimp only at h
    rw [Option.some_inj] at h
    subst h
    -- abbreviations
    set rest2 := (rest.dropWhile slashChar).dropWhile (fun c => !authTermChar c) with hr2def
    have hrest2mem : ∀ c ∈ rest2, ctlChar c = false := by
      intro c hc
      rw [hr2def] at hc
      exact hctl c (List.Sublist.mem (List.Sublist.mem hc (List.dropWhile_sublist _))
        (List.dropWhile_sublist _))
    have hdecoded := (Bool.not_eq_true _).mp hemp
    rw [List.isEmpty_eq_false] at hdecoded
    have hforb' : ∀ c ∈ pctDecode (splitAtFirst ':'
        ((rest.dropWhile slashChar).takeWhile (fun c => !authTermChar c))).1,
        forbiddenDomainChar c = false := by
      intro c hc
      have := List.any_eq_false.1 ((Bool.not_eq_true _).mp hforb) c hc
      simpa using this
    -- the head of the post-authority remainder is an authority terminator
    have hterm : ∀ r0 rr, rest2 = r0 :: rr → authTermChar r0 = true := by
      intro r0 rr he
      have hh := List.head?_dropWhile_not (fun c => !authTermChar c) (rest.dropWhile slashChar)
      rw [← hr2def, he] at hh
      simpa using hh
    refine ⟨?_, ?_, ?_, ?_, ?_, ?_, ?_, ?_, ?_⟩
    · dsimp only
      rw [Ne, List.map_eq_nil_iff]
      exact hdecoded
    · dsimp only
      exact forbidden_all_lower _ (List.all_eq_true.2 fun c hc => by simp [hforb' c hc])
    · dsimp only
      exact map_asciiLower_idem _
    · dsimp only
      exact parsePort_bounds hpp
    · -- path is nonempty
      dsimp only
      by_cases hpe : ((splitAtFirst '?' (splitAtFirst '#' rest2).1).1).isEmpty
      · rw [if_pos hpe]
        simp
      · rw [if_neg hpe]
        rw [Ne, List.map_eq_nil_iff]
        exact List.isEmpty_eq_false.1 ((Bool.not_eq_true _).mp hpe)
    · -- path starts with a slash
      dsimp only
      by_cases hpe : ((splitAtFirst '?' (splitAtFirst '#' rest2).1).1).isEmpty
      · rw [if_pos hpe]
        rfl
      · rw [if_neg hpe]
        have hpne' : (splitAtFirst '?' (splitAtFirst '#' rest2).1).1 ≠ [] :=
          List.isEmpty_eq_false.1 ((Bool.not_eq_true _).mp hpe)
        cases hr2 : rest2 with
        | nil =>
          rw [hr2] at hpne'
          exact absurd rfl hpne'
        | cons r0 rr =>
          rw [hr2] at hpne'
          have ht := hterm r0 rr hr2
          by_cases h0 : r0 = '#'
          · exfalso
            subst h0
            rw [splitAtFirst_cons_eq] at hpne'
            exact hpne' rfl
          · rw [splitAtFirst_cons_ne '#' r0 rr h0] at hpne' ⊢
            dsimp only at hpne' ⊢
            by_cases h1 : r0 = '?'
            · exfalso
              subst h1
              rw [splitAtFirst_cons_eq] at hpne'
              exact hpne' rfl
            · rw [splitAtFirst_cons_ne '?' r0 _ h1] at hpne' ⊢
              dsimp only
              have hd4 : ((r0 = '/' ∨ r0 = '?') ∨ r0 = '#') ∨ r0 = '\\' := by
                unfold authTermChar at ht
                simpa using ht
              rcases hd4 with ((rfl | rfl) | rfl) | rfl
              · rfl
              · exact absurd rfl h1
              · exact absurd rfl h0
              · rfl
    · -- path characters
      dsimp only
      by_cases hpe : ((splitAtFirst '?' (splitAtFirst '#' rest2).1).1).isEmpty
      · rw [if_pos hpe]
        decide
      · rw [if_neg hpe]
        rw [List.all_eq_true]
        intro c hc
        rw [List.mem_map] at hc
        obtain ⟨d, hd, rfl⟩ := hc
        have hd2 : d ∈ (splitAtFirst '#' rest2).1 := splitAtFirst_fst_mem hd
        have hd3 : d ∈ rest2 := splitAtFirst_fst_mem hd2
        have hdq : d ≠ '?' := fun he => (splitAtFirst_fst_not_mem '?' _) (he ▸ hd)
        have hdh : d ≠ '#' := fun he => (splitAtFirst_fst_not_mem '#' _) (he ▸ hd2)
        have hdc : ctlChar d = false := hrest2mem d hd3
        by_cases hds : d = '\\'
        · subst hds
          decide
        · have hfix : slashFix d = d := by
            unfold slashFix
            rw [if_neg hds]
          rw [hfix]
          simp [hdq, hdh, hds, hdc]
    · -- query characters
      dsimp only
      intro q hq
      rw [List.all_eq_true]
      intro c hc
      have hc1 : c ∈ (splitAtFirst '#' rest2).1 := splitAtFirst_snd_mem hq hc
      have hch : c ≠ '#' := fun he => (splitAtFirst_fst_not_mem '#' _) (he ▸ hc1)
      have hcc : ctlChar c = false := hrest2mem c (splitAtFirst_fst_mem hc1)
      simp [hch, hcc]
    · -- fragment characters
      dsimp only
      intro f hf
      rw [List.all_eq_true]
      intro c hc
      have hcc : ctlChar c = false := hrest2mem c (splitAtFirst_snd_mem hf hc)
      simp [hcc]

theorem parseHttpUrl_wf {l : List Char} {p : ParsedUrl}
    (h : parseHttpUrl l = some p) : WFUrl p := by
  unfold parseHttpUrl at h
  dsimp only at h
  have hctl : ∀ c ∈ stripCtl l, ctlChar c = false := by
    intro c hc
    have := List.mem_filter.1 hc
    simpa using this.2
  by_cases h1 : "https://".toList.isPrefixOf (stripCtl l) = true
  · rw [if_pos h1] at h
    exact parseAfterScheme_wf
      (fun c hc => hctl c (List.Sublist.mem hc (List.drop_sublist _ _))) h
  · rw [if_neg h1] at h
    by_cases h2 : "http://".toList.isPrefixOf (stripCtl l) = true
    · rw [if_pos h2] at h
      exact parseAfterScheme_wf
        (fun c hc => hctl c (List.Sublist.mem hc (List.drop_sublist _ _))) h
    · rw [if_neg h2] at h
      cases h

theorem not_ws_not_ctl (c : Char) (h : jsWsChar c = false) : ctlChar c = false := by
  unfold jsWsChar at h
  unfold ctlChar
  simp only [Bool.or_eq_false_iff, decide_eq_false_iff_not] at h ⊢
  omega

theorem filter_getLast? {p : Char → Bool} {l : List Char} {a : Char}
    (h : l.getLast? = some a) (hp : p a = true) :
    (l.filter p).getLast? = some a := by
  obtain ⟨init, rfl⟩ := List.getLast?_eq_some_iff.1 h
  rw [List.filter_append]
  have hsing : [a].filter p = [a] := by
    simp [List.filter, hp]
  rw [hsing]
  exact List.getLast?_concat _

theorem getLast?_of_suffix {l₁ l₂ : List Char} {c : Char}
    (hs : l₁ <:+ l₂) (h : l₁.getLast? = some c) : l₂.getLast? = some c := by
  obtain ⟨pre, rfl⟩ := hs
  rw [List.getLast?_append, h]
  rfl

theorem trimChars_eq_self (l : List Char)
    (hh : ∀ c, l.head? = some c → jsWsChar c = false)
    (hl : ∀ c, l.getLast? = some c → jsWsChar c = false) : trimChars l = l := by
  unfold trimChars
  cases l with
  | nil => rfl
  | cons a rest =>
    rw [dropWhile_cons_neg _ (hh a rfl)]
    cases hrev : (a :: rest).reverse with
    | nil => simp at hrev
    | cons e tl =>
      have he : (a :: rest).getLast? = some e := by
        rw [← List.head?_reverse, hrev]
        rfl
      rw [dropWhile_cons_neg _ (hl e he), ← hrev, List.reverse_reverse]

theorem slashFix_not_ws (d : Char) (h : jsWsChar d = false) : jsWsChar (slashFix d) = false := by
  unfold slashFix
  split_ifs with hd
  · decide
  · exact h

theorem getLast?_cons {a c : Char} {l : List Char}
    (hc : (a :: l).getLast? = some c) : c = a ∨ l.getLast? = some c := by
  cases hl : l.getLast? with
  | none =>
    rw [List.getLast?_eq_none_iff] at hl
    subst hl
    simp at hc
    exact Or.inl hc.symm
  | some d =>
    right
    rw [show a :: l = [a] ++ l from rfl, List.getLast?_append, hl, Option.or_some] at hc
    exact hc

theorem suffix_of_recon_hash {t : Char} {l ys : List Char}
    (h : (splitAtFirst t l).2 = some ys) : ys <:+ l := by
  refine ⟨(splitAtFirst t l).1 ++ [t], ?_⟩
  rw [List.append_assoc, List.singleton_append, ← splitAtFirst_recon h]

theorem parseAfterScheme_getLast_edge {sec : Bool} {rest : List Char} {p : ParsedUrl}
    (h : parseAfterScheme sec rest = some p)
    (hl : ∀ c, rest.getLast? = some c → jsWsChar c = false) :
    ∀ c, (serializeUrl p).getLast? = some c → jsWsChar c = false := by
  unfold parseAfterScheme at h
  dsimp only at h
  by_cases hat : '@' ∈ (rest.dropWhile slashChar).takeWhile (fun c => !authTermChar c)
  · rw [if_pos hat] at h; cases h
  rw [if_neg hat] at h
  by_cases hemp :
      (pctDecode (splitAtFirst ':'
        ((rest.dropWhile slashChar).takeWhile (fun c => !authTermChar c))).1).isEmpty
  · rw [if_pos hemp] at h; cases h
  rw [if_neg hemp] at h
  by_cases hforb : (pctDecode (splitAtFirst ':'
      ((rest.dropWhile slashChar).takeWhile (fun c => !authTermChar c))).1).any
      forbiddenDomainChar
  · rw [if_pos hforb] at h; cases h
  rw [if_neg hforb] at h
  cases hpp : parsePort sec (splitAtFirst ':'
      ((rest.dropWhile slashChar).takeWhile (fun c => !authTermChar c))).2 with
  | none => rw [hpp] at h; cases h
  | some port =>
    rw [hpp] at h
    dsimp only at h
    rw [Option.some_inj] at h
    subst h
    set rest2 := (rest.dropWhile slashChar).dropWhile (fun c => !authTermChar c) with hr2def
    have hsuf : rest2 <:+ rest := by
      rw [hr2def]
      exact (List.dropWhile_suffix _).trans (List.dropWhile_suffix _)
    have hr2last : ∀ c, rest2.getLast? = some c → jsWsChar c = false :=
      fun c hc => hl c (getLast?_of_suffix hsuf hc)
    intro c hc
    unfold serializeUrl at hc
    dsimp only at hc
    rw [List.getLast?_append] at hc
    cases hpf2 : (splitAtFirst '#' rest2).2 with
    | some f =>
      rw [hpf2] at hc
      have hfsuf : f <:+ rest2 := suffix_of_recon_hash hpf2
      simp only [fragChars] at hc
      cases hfl : ('#' :: f).getLast? with
      | none => simp [List.getLast?_eq_none_iff] at hfl
      | some z =>
        rw [hfl, Option.or_some] at hc
        injection hc with hzc
        subst hzc
        rcases getLast?_cons hfl with rfl | hz
        · decide
        · exact hr2last _ (getLast?_of_suffix hfsuf hz)
    | none =>
      rw [hpf2] at hc
      have hpf1 : (splitAtFirst '#' rest2).1 = rest2 := splitAtFirst_recon_none hpf2
      simp only [fragChars, List.getLast?_nil, Option.or_none] at hc
      rw [List.getLast?_append] at hc
      cases hpq2 : (splitAtFirst '?' (splitAtFirst '#' rest2).1).2 with
      | some q =>
        rw [hpq2] at hc
        have hqsuf : q <:+ rest2 := hpf1 ▸ suffix_of_recon_hash hpq2
        simp only [queryChars] at hc
        cases hql : ('?' :: q).getLast? with
        | none => simp [List.getLast?_eq_none_iff] at hql
        | some z =>
          rw [hql, Option.or_some] at hc
          injection hc with hzc
          subst hzc
          rcases getLast?_cons hql with rfl | hz
          · decide
          · exact hr2last _ (getLast?_of_suffix hqsuf hz)
      | none =>
        rw [hpq2] at hc
        have hpq1 : (splitAtFirst '?' (splitAtFirst '#' rest2).1).1
            = rest2 := by
          rw [splitAtFirst_recon_none hpq2, hpf1]
        simp only [queryChars, List.getLast?_nil, Option.or_none] at hc
        rw [List.getLast?_append] at hc
        by_cases hpe : ((splitAtFirst '?' (splitAtFirst '#' rest2).1).1).isEmpty
        · rw [if_pos hpe] at hc
          rw [show (['/'] : List Char).getLast? = some '/' from rfl, Option.or_some] at hc
          injection hc with hzc
          subst hzc
          decide
        · rw [if_neg hpe] at hc
          rw [List.getLast?_map, hpq1] at hc
          cases hrl : rest2.getLast? with
          | none =>
            rw [List.getLast?_eq_none_iff] at hrl
            rw [hpq1, hrl] at hpe
            simp at hpe
          | some d =>
            rw [hrl] at hc
            simp only [Option.map_some', Option.or_some] at hc
            injection hc with hzc
            subst hzc
            exact slashFix_not_ws d (hr2last d hrl)

theorem head?_dropWhile_not {p : Char → Bool} :
    ∀ (l : List Char) (c : Char), ((l.dropWhile p).head? = some c) → p c = false := by
  intro l
  induction l with
  | nil => intro c h; cases h
  | cons a rest ih =>
    intro c h
    rw [List.dropWhile_cons] at h
    by_cases hp : p a
    · rw [if_pos hp] at h
      exact ih c h
    · rw [if_neg hp] at h
      cases h
      simpa using hp

theorem trimChars_getLast (l : List Char) :
    ∀ c, (trimChars l).getLast? = some c → jsWsChar c = false := by
  intro c hc
  unfold trimChars at hc
  rw [List.getLast?_reverse] at hc
  exact head?_dropWhile_not _ c hc

theorem stripCtl_getLast (l : List Char)
    (hl : ∀ c, l.getLast? = some c → jsWsChar c = false) :
    ∀ c, (stripCtl l).getLast? = some c → jsWsChar c = false := by
  intro c hc
  cases hlast : l.getLast? with
  | none =>
    rw [List.getLast?_eq_none_iff] at hlast
    subst hlast
    cases hc
  | some a =>
    have hwa : jsWsChar a = false := hl a hlast
    have : (stripCtl l).getLast? = some a :=
      filter_getLast? hlast (by simp [not_ws_not_ctl a hwa])
    rw [this] at hc
    cases hc
    exact hwa

theorem parseHttpUrl_getLast_edge {l : List Char} {p : ParsedUrl}
    (h : parseHttpUrl l = some p)
    (hl : ∀ c, l.getLast? = some c → jsWsChar c = false) :
    ∀ c, (serializeUrl p).getLast? = some c → jsWsChar c = false := by
  unfold parseHttpUrl at h
  dsimp only at h
  have hstrip : ∀ c, (stripCtl l).getLast? = some c → jsWsChar c = false :=
    stripCtl_getLast l hl
  by_cases h1 : "https://".toList.isPrefixOf (stripCtl l) = true
  · rw [if_pos h1] at h
    exact parseAfterScheme_getLast_edge h
      (fun c hc => hstrip c (getLast?_of_suffix (List.drop_suffix _ _) hc))
  · rw [if_neg h1] at h
    by_cases h2 : "http://".toList.isPrefixOf (stripCtl l) = true
    · rw [if_pos h2] at h
      exact parseAfterScheme_getLast_edge h
        (fun c hc => hstrip c (getLast?_of_suffix (List.drop_suffix _ _) hc))
    · rw [if_neg h2] at h
      cases h

theorem serializeUrl_head (p : ParsedUrl) : (serializeUrl p).head? = some 'h' := by
  unfold serializeUrl
  cases hs : p.secure <;> rfl

theorem serializeUrl_ne_nil (p : ParsedUrl) : (serializeUrl p).isEmpty = false := by
  have h := serializeUrl_head p
  cases he : serializeUrl p with
  | nil => rw [he] at h; cases h
  | cons a rest => rfl

theorem serializeUrl_scheme (p : ParsedUrl) :
    startsWithScheme (serializeUrl p) = true := by
  unfold startsWithScheme serializeUrl
  cases hs : p.secure <;>
    simp [List.append_assoc, http_prefix_of_append, https_prefix_of_append]

theorem scheme_append_getLast (t : List Char)
    (hl : ∀ c, t.getLast? = some c → jsWsChar c = false) :
    ∀ c, ("https://".toList ++ t).getLast? = some c → jsWsChar c = false := by
  intro c hc
  rw [List.getLast?_append] at hc
  cases ht : t.getLast? with
  | none =>
    rw [ht] at hc
    cases hc
    decide
  | some d =>
    rw [ht, Option.or_some] at hc
    cases hc
    exact hl _ ht

theorem normalizeUrl_output_shape {t u : List Char}
    (h : (parseHttpUrl t).map serializeUrl = some u)
    (ht : ∀ c, t.getLast? = some c → jsWsChar c = false)
    (hp : parenExtract u = none) :
    normalizeUrlChars u = some u := by
  obtain ⟨p, hpar, hu⟩ := Option.map_eq_some'.1 h
  subst hu
  have hwf := parseHttpUrl_wf hpar
  have hlast := parseHttpUrl_getLast_edge hpar ht
  have hhead : (serializeUrl p).head? = some 'h' := serializeUrl_head p
  have htrim : trimChars (serializeUrl p) = serializeUrl p :=
    trimChars_eq_self _ (fun c hc => by rw [hhead] at hc; cases hc; decide) hlast
  unfold normalizeUrlChars
  rw [if_neg (by rw [serializeUrl_ne_nil p]; exact Bool.false_ne_true)]
  dsimp only
  rw [htrim, hp]
  dsimp only
  rw [if_pos (serializeUrl_scheme p), serializeUrl_roundtrip p hwf]
  rfl

theorem normalizeUrlChars_idem {l u : List Char}
    (h : normalizeUrlChars l = some u)
    (hp : parenExtract u = none) :
    normalizeUrlChars u = some u := by
  unfold normalizeUrlChars at h
  by_cases hle : l.isEmpty = true
  · rw [if_pos hle] at h; cases h
  rw [if_neg hle] at h
  dsimp only at h
  cases hpe : parenExtract (trimChars l) with
  | some inner =>
    rw [hpe] at h
    dsimp only at h
    by_cases hsw : startsWithScheme (trimChars inner) = true
    · rw [if_pos hsw] at h
      exact normalizeUrl_output_shape h (trimChars_getLast inner) hp
    · rw [if_neg hsw] at h
      exact normalizeUrl_output_shape h
        (scheme_append_getLast _ (trimChars_getLast inner)) hp
  | none =>
    rw [hpe] at h
    dsimp only at h
    by_cases hsw : startsWithScheme (trimChars l) = true
    · rw [if_pos hsw] at h
      exact normalizeUrl_output_shape h (trimChars_getLast l) hp
    · rw [if_neg hsw] at h
      exact normalizeUrl_output_shape h
        (scheme_append_getLast _ (trimChars_getLast l)) hp

/-- Counterexample to plain idempotence of `normalizeUrl`: the URL
parser percent-decodes the host, so a first pass can surface literal
parentheses that a second pass treats as a parenthesized-URL group. -/
theorem normalizeUrl_not_idempotent :
    normalizeUrl "example%28a%29.com" = some "https://example(a).com/"
      ∧ normalizeUrl "https://example(a).com/" = some "https://a/" := by
  constructor <;> decide

/-- C5: `normalizeUrl` is idempotent on every output that contains no
parenthesized group (no match of the regex group in `parenExtract`):
if `normalizeUrl x = some u` and `parenExtract u.toList = none` then
`normalizeUrl u = some u`.  (Amended: plain idempotence is refuted by
`normalizeUrl_not_idempotent`.) -/
theorem normalizeUrl_idem (x u : String)
    (h : normalizeUrl x = some u)
    (hp : parenExtract u.toList = none) :
    normalizeUrl u = some u := by
  unfold normalizeUrl at h ⊢
  obtain ⟨lu, hlu, hs⟩ := Option.map_eq_some'.1 h
  subst hs
  have htl : (lu.asString).toList = lu := rfl
  rw [htl] at hp ⊢
  rw [normalizeUrlChars_idem hlu hp]
  rfl

/-- Witness for C5 at a scheme-less host-only input. -/
theorem normalizeUrl_idem_witness :
    normalizeUrl "example.com" = some "https://example.com/"
      ∧ parenExtract ("https://example.com/" : String).toList = none
      ∧ normalizeUrl "https://example.com/" = some "https://example.com/" :=
  ⟨by decide, by decide,
    normalizeUrl_idem "example.com" "https://example.com/" (by decide) (by decide)⟩

end Autosend
